import Mathlib

/-!
# Verification of the mlflow-client buffered asynchronous run writer

Shallow embedding of the core of the repository:
- src/data.rs: Metric, RunStatus, Timestamp, and the derived total order on
  Metric (value compared through OrderedFloat);
- src/mlflow_run.rs: MlflowRun::log_batch chunking of oversized batches;
- src/mlflow_run_writer.rs: the Data box (take_error / push_error), the
  facade operations log_metric / log_metrics / end / finish / Drop, the
  spawn_task guard, and the background worker run_task, modelled as a
  small-step interleaved transition system (each region of code executed
  while holding the mutex is one atomic step; each network call is its own
  step whose outcome is supplied by the environment).

Rust i64 timestamps are modelled as Int (no arithmetic is performed on them
in the modelled code, so wrap-around cannot arise), f64 metric values as a
comparison model F64 (NaN / -inf / finite rational / +inf), and fallible
operations return Except Err Unit mirroring Result<()>.
-/

namespace MlflowClient

/-- run status, from data.rs RunStatus. -/
inductive RunStatus where
  | running
  | scheduled
  | finished
  | failed
  | killed
  deriving DecidableEq, BEq

/-- Errors, from error.rs Error (payloads of network-library variants kept
as opaque strings). -/
inductive Err where
  | apiError (error_code message : String)
  | reqwestError (s : String)
  | jsonError (s : String)
  | urlParseError (s : String)
  | taskJoinError
  | message (s : String)
  deriving DecidableEq, BEq

/-- Comparison model of Rust f64: what matters to the modelled code is only
how values compare, so we keep NaN, the two infinities and finite values
(as rationals); +0.0 and -0.0 compare equal in both the IEEE partial order
and OrderedFloat's total order, so they are identified. -/
inductive F64 where
  | nan
  | neginf
  | fin (q : ℚ)
  | posinf
  deriving DecidableEq, BEq

/-- IEEE-754 comparison on f64 (Rust PartialOrd::partial_cmp): undefined
(None) whenever a NaN is involved. -/
def F64.cmpIEEE : F64 → F64 → Option Ordering
  | .nan, _ => none
  | _, .nan => none
  | .neginf, .neginf => some .eq
  | .neginf, _ => some .lt
  | _, .neginf => some .gt
  | .posinf, .posinf => some .eq
  | .posinf, _ => some .gt
  | _, .posinf => some .lt
  | .fin a, .fin b => some (if a < b then .lt else if a = b then .eq else .gt)

/-- Total order on f64 from the ordered_float crate (Ord for OrderedFloat):
IEEE order where defined; NaN equals NaN and is greater than everything
else. -/
def F64.cmpOrderedFloat (a b : F64) : Ordering :=
  match a.cmpIEEE b with
  | some o => o
  | none =>
    if a = .nan then (if b = .nan then .eq else .gt) else .lt

/-- Equality on f64 from OrderedFloat's PartialEq: IEEE equality, except
that two NaNs are equal. -/
def F64.beqOrderedFloat (a b : F64) : Bool :=
  if a = .nan then b = .nan else a.cmpIEEE b = some .eq

/-- Rust String ordering is lexicographic on UTF-8 bytes, which coincides
with lexicographic comparison of the code-point sequence. -/
def strCmp : List Char → List Char → Ordering
  | [], [] => .eq
  | [], _ :: _ => .lt
  | _ :: _, [] => .gt
  | a :: as, b :: bs =>
    (if a.toNat < b.toNat then Ordering.lt
     else if a.toNat = b.toNat then Ordering.eq else Ordering.gt).then (strCmp as bs)

/-- Rust i64 ordering (timestamps and steps). -/
def intCmp (a b : Int) : Ordering :=
  if a < b then .lt else if a = b then .eq else .gt

/-- Rust Ord for Option: None is less than Some. -/
def optIntCmp : Option Int → Option Int → Ordering
  | none, none => .eq
  | none, some _ => .lt
  | some _, none => .gt
  | some a, some b => intCmp a b

/-- Metric from data.rs: key, value, timestamp (millisecond i64), step.
The Timestamp newtype is transparent, modelled directly as Int. -/
structure Metric where
  key : String
  value : F64
  timestamp : Int
  step : Option Int
  deriving DecidableEq, BEq

/-- The Ord impl derive_ex generates for Metric: fields compared in
declaration order, the value through the OrderedFloat key
(attribute ord(key = OrderedFloat) in data.rs). -/
def Metric.cmp (a b : Metric) : Ordering :=
  (strCmp a.key.data b.key.data).then
    ((a.value.cmpOrderedFloat b.value).then
      ((intCmp a.timestamp b.timestamp).then (optIntCmp a.step b.step)))

/-- The PartialEq/Eq impl derive_ex generates for Metric: all four fields,
the value through the OrderedFloat key (an Eq impl on a raw f64 field would
not exist, so equality necessarily goes through the key as well). -/
def Metric.beq (a b : Metric) : Bool :=
  a.key == b.key && a.value.beqOrderedFloat b.value &&
    a.timestamp == b.timestamp && a.step == b.step

/-- Model of a std::thread::JoinHandle as far as the writer inspects it:
whether the thread has finished, and whether joining it reports a panic
(JoinHandle::join returning Err). -/
structure JoinHandleM where
  finished : Bool
  joinPanicked : Bool
  deriving DecidableEq, BEq

/-- The shared state box of mlflow_run_writer.rs (struct Data), guarded by
a Mutex in the source. -/
structure Data where
  metrics : List Metric
  error : Option Err
  status : RunStatus
  end_time : Option Int
  task : Option JoinHandleM
  deriving DecidableEq, BEq

/-- Data::take_error: if a worker handle exists and its thread has
finished, join it (clearing the handle), an abnormal termination returning
Err(TaskJoinError) at once; otherwise return the stored error, clearing
it, or Ok(()). -/
def Data.takeError (d : Data) : Except Err Unit × Data :=
  let joined : Option (Except Err Unit) × Data :=
    match d.task with
    | some h =>
      if h.finished then
        if h.joinPanicked then
          (some (Except.error Err.taskJoinError), { d with task := none })
        else (none, { d with task := none })
      else (none, d)
    | none => (none, d)
  match joined with
  | (some r, d) => (r, d)
  | (none, d) =>
    match d.error with
    | some e => (Except.error e, { d with error := none })
    | none => (Except.ok (), d)

/-- Data::push_error: keep the first stored error, drop later ones. -/
def Data.pushError (d : Data) (e : Option Err) : Data :=
  if d.error.isNone then { d with error := e } else d

/-- Param from data.rs. -/
structure Param where
  key : String
  value : String
  deriving DecidableEq, BEq

/-- RunTag from data.rs. -/
structure RunTag where
  key : String
  value : String
  deriving DecidableEq, BEq

/-- The UpdateRunOptions record the worker builds for the terminal
update_run call (status = Some(d.status), end_time = d.end_time,
run_name defaulted to None). -/
structure UpdateRec where
  status : Option RunStatus
  end_time : Option Int
  run_name : Option String
  deriving DecidableEq, BEq

/-- Program counter of the background worker run_task. Each constructor is
a point where the worker does not hold the lock (or is about to take it):
top = about to lock at the top of the loop; sending = a log_batch network
call in flight carrying the batch it took; updating = an update_run
network call in flight carrying the snapshot it read under the lock;
exiting = about to re-take the lock to push its error and clear its
handle. -/
inductive WPc where
  | top
  | sending (batch : List Metric)
  | updating (st : RunStatus) (et : Option Int)
  | exiting
  deriving DecidableEq, BEq

/-- A live worker thread: its program counter and the worker-local err
variable of run_task. -/
structure Worker where
  pc : WPc
  err : Option Err
  deriving DecidableEq, BEq

/-- Whole-system state: the shared Data box, the list of live worker
threads (the source invariant says at most one; the model allows any
number so that the invariant is a real theorem), the observable trace of
network calls (batches passed to client log_batch, update_run payloads),
and the facade's is_end flag. -/
structure Sys where
  d : Data
  workers : List Worker
  sent : List (List Metric)
  updates : List UpdateRec
  is_end : Bool
  deriving DecidableEq, BEq

/-- The state MlflowRunWriter::new builds. -/
def initSys : Sys :=
  { d := { metrics := [], error := none, status := .running,
           end_time := none, task := none }
    workers := [], sent := [], updates := [], is_end := false }

/-- MlflowRunWriter::spawn_task (caller holds the lock): spawn a worker
only when no handle is stored. -/
def spawnTask (s : Sys) : Sys :=
  if s.d.task = none then
    { s with d := { s.d with task := some ⟨false, false⟩ },
             workers := s.workers ++ [⟨.top, none⟩] }
  else s

/-- One worker micro-step of run_task for the worker at index i; net is
the outcome the environment gives the network call in flight, if one is
(None = success). Each case is one lock-to-lock region of run_task. -/
def workerStep (s : Sys) (i : Nat) (net : Option Err) : Sys :=
  match s.workers[i]? with
  | none => s
  | some w =>
    match w.pc with
    | .top =>
      if s.d.error = none ∧ s.d.metrics ≠ [] then
        { s with d := { s.d with metrics := [] },
                 workers := s.workers.set i { w with pc := .sending s.d.metrics } }
      else if s.d.status ≠ .running then
        { s with workers := s.workers.set i { w with pc := .updating s.d.status s.d.end_time } }
      else
        { s with d := { s.d.pushError w.err with task := none },
                 workers := s.workers.eraseIdx i }
    | .sending batch =>
      { s with sent := s.sent ++ [batch],
               workers := s.workers.set i { w with pc := .top, err := w.err.or net } }
    | .updating st et =>
      { s with updates := s.updates ++ [⟨some st, et, none⟩],
               workers := s.workers.set i { w with pc := .exiting, err := w.err.or net } }
    | .exiting =>
      { s with d := { s.d.pushError w.err with task := none },
               workers := s.workers.eraseIdx i }

/-- MlflowRunWriter::log_metric: one lock region: push the record with
timestamp = call time, spawn_task, take_error; the call performs no
network operation itself. -/
def logMetricStep (s : Sys) (k : String) (v : F64) (t : Int) (st : Option Int) :
    Except Err Unit × Sys :=
  let s := { s with d := { s.d with metrics := s.d.metrics ++ [⟨k, v, t, st⟩] } }
  let s := spawnTask s
  let rd := s.d.takeError
  (rd.1, { s with d := rd.2 })

/-- MlflowRunWriter::log_metrics: Timestamp::now is read once, before the
loop, so every record of the call shares t. -/
def logMetricsStep (s : Sys) (kvs : List (String × F64)) (t : Int) (st : Option Int) :
    Except Err Unit × Sys :=
  let s := { s with d := { s.d with
    metrics := s.d.metrics ++ kvs.map (fun kv => ⟨kv.1, kv.2, t, st⟩) } }
  let s := spawnTask s
  let rd := s.d.takeError
  (rd.1, { s with d := rd.2 })

/-- While the facade blocks in JoinHandle::join no facade step can
interleave, so the remaining run of the joined worker is deterministic:
run the first worker until it exits, feeding each network call the next
outcome from nets (running out of outcomes means success). -/
def runWorker : Nat → List (Option Err) → Sys → Sys
  | 0, _, s => s
  | fuel + 1, nets, s =>
    match s.workers with
    | [] => s
    | w :: _ =>
      match w.pc with
      | .sending _ => runWorker fuel nets.tail (workerStep s 0 (nets.headD none))
      | .updating _ _ => runWorker fuel nets.tail (workerStep s 0 (nets.headD none))
      | _ => runWorker fuel nets (workerStep s 0 none)

/-- Fuel sufficient for the joined worker to exit: with no facade
interference a worker passes the top of the loop at most three times
(one drain, one terminal update, one exit), at most six micro-steps. -/
def joinFuel : Nat := 8

/-- MlflowRunWriter::end: set is_end, then under the lock set the terminal
status and end_time = now, spawn_task, take the handle; release the lock
and join the taken worker (a panicked join returns TaskJoinError without
reaping the stored error); finally take_error under the lock again. -/
def endRun (s : Sys) (status : RunStatus) (t : Int) (nets : List (Option Err)) :
    Except Err Unit × Sys :=
  let s := { s with is_end := true }
  let s := { s with d := { s.d with status := status, end_time := some t } }
  let s := spawnTask s
  let taken := s.d.task
  let s := { s with d := { s.d with task := none } }
  let s := runWorker joinFuel nets s
  match taken with
  | some h =>
    if h.joinPanicked then (Except.error Err.taskJoinError, s)
    else
      let rd := s.d.takeError
      (rd.1, { s with d := rd.2 })
  | none =>
    let rd := s.d.takeError
    (rd.1, { s with d := rd.2 })

/-- MlflowRunWriter::finish = end(Finished). -/
def finishRun (s : Sys) (t : Int) (nets : List (Option Err)) :
    Except Err Unit × Sys :=
  endRun s .finished t nets

/-- Drop for MlflowRunWriter: if finish was never called, run
end(Failed) and discard its result. -/
def dropWriter (s : Sys) (t : Int) (nets : List (Option Err)) : Sys :=
  if s.is_end then s else (endRun s .failed t nets).2

/-- Interleaving commands: facade calls (with the Timestamp::now value the
call observes) and scheduled worker micro-steps with their network
outcomes. -/
inductive Cmd where
  | logMetric (k : String) (v : F64) (t : Int) (step : Option Int)
  | logMetrics (kvs : List (String × F64)) (t : Int) (step : Option Int)
  | wstep (i : Nat) (net : Option Err)
  deriving DecidableEq, BEq

def execCmd (s : Sys) : Cmd → Sys
  | .logMetric k v t st => (logMetricStep s k v t st).2
  | .logMetrics kvs t st => (logMetricsStep s kvs t st).2
  | .wstep i net => workerStep s i net

def exec (cmds : List Cmd) (s : Sys) : Sys := cmds.foldl execCmd s

/-- The metric records a command enqueues. -/
def cmdMetrics : Cmd → List Metric
  | .logMetric k v t st => [⟨k, v, t, st⟩]
  | .logMetrics kvs t st => kvs.map fun kv => ⟨kv.1, kv.2, t, st⟩
  | .wstep _ _ => []

/-- All records enqueued by a command list, in order. -/
def enqueued (cmds : List Cmd) : List Metric := (cmds.map cmdMetrics).flatten

/-- Every scheduled network operation succeeds. -/
def Cmd.isOk : Cmd → Bool
  | .wstep _ net => net.isNone
  | _ => true

def allSuccess (cmds : List Cmd) : Bool := cmds.all Cmd.isOk

/-- The batch a worker is currently passing to log_batch, if any. -/
def Worker.inFlight (w : Worker) : List Metric :=
  match w.pc with
  | .sending b => b
  | _ => []

def Sys.inFlight (s : Sys) : List Metric := (s.workers.map Worker.inFlight).flatten

/-- Every record the writer has accepted, each in exactly one place:
already sent (in batch order), in flight, or still pending. -/
def Sys.accounted (s : Sys) : List Metric :=
  s.sent.flatten ++ s.inFlight ++ s.d.metrics

/-- A concrete succeeding trace: two facade calls around a worker step. -/
def exCmds : List Cmd :=
  [ .logMetric "loss" (.fin (1/2)) 100 (some 0),
    .wstep 0 none,
    .logMetrics [("a", .fin 1), ("b", .fin 2)] 200 (some 1) ]

/-- A concrete trace in which one worker lifetime sees a failed log_batch
and then another log_batch: the facade enqueues "a"; the worker takes it;
the facade enqueues "b" while the send of ["a"] is in flight; that send
fails; the worker loops, sees no stored error and a non-empty queue, takes
["b"] and sends it (successfully); then exits, pushing the first error. -/
def failCmds : List Cmd :=
  [ .logMetric "a" (.fin 1) 0 none,
    .wstep 0 none,
    .logMetric "b" (.fin 2) 1 none,
    .wstep 0 (some (.apiError "INTERNAL_ERROR" "boom")),
    .wstep 0 none,
    .wstep 0 none,
    .wstep 0 none ]

/-- A quiescent writer state holding a stored asynchronous error that the
next facade call will surface. -/
def errSys : Sys :=
  { initSys with d := { initSys.d with error := some (.message "async failure") } }

/-! ## MlflowRun::log_batch chunking (src/mlflow_run.rs, src/client.rs) -/

def LOG_BATCH_MAX_TOTAL : Nat := 1000
def LOG_BATCH_MAX_METRICS : Nat := 1000
def LOG_BATCH_MAX_PARAMS : Nat := 100
def LOG_BATCH_MAX_TAGS : Nat := 100

/-- The while loop: while end < len { start = end; end = min(end + n, len);
push xs[start..end] }. Fuel = the initial length bounds the iteration
count whenever n is at least 1. -/
def chunksGo (n : Nat) : Nat → List α → List (List α)
  | 0, _ => []
  | _, [] => []
  | fuel + 1, xs => xs.take n :: chunksGo n fuel (xs.drop n)

def chunks (n : Nat) (xs : List α) : List (List α) := chunksGo n xs.length xs

/-- One invocation of MlflowClient::log_batch as issued by
MlflowRun::log_batch. -/
structure BatchCall where
  metrics : List Metric
  params : List Param
  tags : List RunTag
  deriving DecidableEq, BEq

/-- MlflowRun::log_batch: empty input sends nothing; input within every
limit is sent as one call; otherwise each kind is sent alone, chunked to
its own limit, metrics first, then params, then tags. -/
def logBatchCalls (metrics : List Metric) (params : List Param) (tags : List RunTag) :
    List BatchCall :=
  let len_sum := metrics.length + params.length + tags.length
  if len_sum = 0 then []
  else if len_sum ≤ LOG_BATCH_MAX_TOTAL ∧ metrics.length ≤ LOG_BATCH_MAX_METRICS ∧
      params.length ≤ LOG_BATCH_MAX_PARAMS ∧ tags.length ≤ LOG_BATCH_MAX_TAGS then
    [⟨metrics, params, tags⟩]
  else
    (chunks LOG_BATCH_MAX_METRICS metrics).map (fun c => ⟨c, [], []⟩) ++
      (chunks LOG_BATCH_MAX_PARAMS params).map (fun c => ⟨[], c, []⟩) ++
      (chunks LOG_BATCH_MAX_TAGS tags).map (fun c => ⟨[], [], c⟩)

/-- Both logging calls are one lock region: append records, spawn_task,
take_error. Stated once so the lemmas can be shared. -/
def facadeLog (s : Sys) (L : List Metric) : Except Err Unit × Sys :=
  let s := { s with d := { s.d with metrics := s.d.metrics ++ L } }
  let s := spawnTask s
  let rd := s.d.takeError
  (rd.1, { s with d := rd.2 })

/-- State invariant maintained by every facade call and worker step before
end() runs: at most one live worker; a handle is stored exactly when a
worker is alive; stored handles belong to threads that have neither
finished nor panicked; the run status is still Running and no terminal
update has been issued; every live worker is at the loop top or sending a
batch. -/
structure PreInv (s : Sys) : Prop where
  one_worker : s.workers.length ≤ 1
  task_worker : s.d.task = none ↔ s.workers = []
  fresh : ∀ h, s.d.task = some h → h.finished = false ∧ h.joinPanicked = false
  status_running : s.d.status = .running
  no_updates : s.updates = []
  not_end : s.is_end = false
  pc_ok : ∀ w ∈ s.workers, w.pc = .top ∨ ∃ b, w.pc = .sending b

/-- No error has been recorded anywhere (all network operations so far
succeeded). -/
structure ErrFree (s : Sys) : Prop where
  no_err : s.d.error = none
  workers_err : ∀ w ∈ s.workers, w.err = none

/-! ## Component lemmas about the shared box operations -/

theorem Data.takeError_metrics (d : Data) : d.takeError.2.metrics = d.metrics := by
  rcases hT : d.task with _ | h
  · rcases hE : d.error with _ | e <;> simp [Data.takeError, hT, hE]
  · rcases hE : d.error with _ | e <;>
      by_cases hf : h.finished <;> by_cases hp : h.joinPanicked <;>
        simp [Data.takeError, hT, hE, hf, hp]

theorem Data.takeError_status (d : Data) : d.takeError.2.status = d.status := by
  rcases hT : d.task with _ | h
  · rcases hE : d.error with _ | e <;> simp [Data.takeError, hT, hE]
  · rcases hE : d.error with _ | e <;>
      by_cases hf : h.finished <;> by_cases hp : h.joinPanicked <;>
        simp [Data.takeError, hT, hE, hf, hp]

theorem Data.takeError_end_time (d : Data) : d.takeError.2.end_time = d.end_time := by
  rcases hT : d.task with _ | h
  · rcases hE : d.error with _ | e <;> simp [Data.takeError, hT, hE]
  · rcases hE : d.error with _ | e <;>
      by_cases hf : h.finished <;> by_cases hp : h.joinPanicked <;>
        simp [Data.takeError, hT, hE, hf, hp]

/-- When no stored handle belongs to a finished thread, take_error does not
join: the result is exactly the stored error (consumed), Ok otherwise. -/
theorem Data.takeError_fst_of_fresh (d : Data)
    (h : ∀ hh, d.task = some hh → hh.finished = false) :
    d.takeError.1 = (match d.error with | some e => Except.error e | none => Except.ok ()) := by
  rcases hT : d.task with _ | hh
  · rcases hE : d.error with _ | e <;> simp [Data.takeError, hT, hE]
  · rcases hE : d.error with _ | e <;>
      simp [Data.takeError, hT, hE, h hh hT]

theorem Data.takeError_error_of_fresh (d : Data)
    (h : ∀ hh, d.task = some hh → hh.finished = false) :
    d.takeError.2.error = none := by
  rcases hT : d.task with _ | hh
  · rcases hE : d.error with _ | e <;> simp [Data.takeError, hT, hE]
  · rcases hE : d.error with _ | e <;>
      simp [Data.takeError, hT, hE, h hh hT]

theorem Data.takeError_task_of_fresh (d : Data)
    (h : ∀ hh, d.task = some hh → hh.finished = false) :
    d.takeError.2.task = d.task := by
  rcases hT : d.task with _ | hh
  · rcases hE : d.error with _ | e <;> simp [Data.takeError, hT, hE]
  · rcases hE : d.error with _ | e <;>
      simp [Data.takeError, hT, hE, h hh hT]

/-- take_error with no stored handle: consume the stored error. -/
theorem Data.takeError_fst_of_none (d : Data) (h : d.task = none) :
    d.takeError.1 = (match d.error with | some e => Except.error e | none => Except.ok ()) :=
  d.takeError_fst_of_fresh (by simp [h])

theorem Data.takeError_error_of_none (d : Data) (h : d.task = none) :
    d.takeError.2.error = none :=
  d.takeError_error_of_fresh (by simp [h])

theorem Data.takeError_task_of_none (d : Data) (h : d.task = none) :
    d.takeError.2.task = none := by
  rw [d.takeError_task_of_fresh (by simp [h])]; exact h

theorem Data.pushError_metrics (d : Data) (e : Option Err) :
    (d.pushError e).metrics = d.metrics := by
  unfold Data.pushError; split <;> rfl

theorem Data.pushError_status (d : Data) (e : Option Err) :
    (d.pushError e).status = d.status := by
  unfold Data.pushError; split <;> rfl

theorem Data.pushError_end_time (d : Data) (e : Option Err) :
    (d.pushError e).end_time = d.end_time := by
  unfold Data.pushError; split <;> rfl

theorem Data.pushError_task (d : Data) (e : Option Err) :
    (d.pushError e).task = d.task := by
  unfold Data.pushError; split <;> rfl

/-- First error wins: push_error is the identity on the error slot when an
error is already stored. -/
theorem Data.pushError_of_some (d : Data) (e0 : Err) (h : d.error = some e0)
    (e : Option Err) : (d.pushError e).error = some e0 := by
  unfold Data.pushError; simp [h]

theorem Data.pushError_of_none (d : Data) (h : d.error = none) (e : Option Err) :
    (d.pushError e).error = e := by
  unfold Data.pushError; simp [h]

/-! ## The reachability invariant of the writer before finalization -/

theorem preInv_init : PreInv initSys := by
  constructor <;> simp [initSys]

theorem errFree_init : ErrFree initSys := by
  constructor <;> simp [initSys]

theorem getElem_of_len_le_one {α} {l : List α} {i : Nat} {w : α}
    (h1 : l.length ≤ 1) (h2 : l[i]? = some w) : l = [w] ∧ i = 0 := by
  cases l with
  | nil => simp at h2
  | cons a t =>
    cases t with
    | nil =>
      cases i with
      | zero => simp at h2; exact ⟨by rw [h2], rfl⟩
      | succ n => simp at h2
    | cons b t2 => simp at h1

/-! ## The common shape of log_metric and log_metrics -/

theorem logMetricStep_eq (s : Sys) (k : String) (v : F64) (t : Int) (st : Option Int) :
    logMetricStep s k v t st = facadeLog s [⟨k, v, t, st⟩] := rfl

theorem logMetricsStep_eq (s : Sys) (kvs : List (String × F64)) (t : Int) (st : Option Int) :
    logMetricsStep s kvs t st = facadeLog s (kvs.map fun kv => ⟨kv.1, kv.2, t, st⟩) := rfl

theorem spawnTask_d_of_some (s : Sys) (h : s.d.task ≠ none) : spawnTask s = s := by
  unfold spawnTask; simp [h]

theorem facadeLog_sent (s : Sys) (L : List Metric) : (facadeLog s L).2.sent = s.sent := by
  by_cases hT : s.d.task = none <;> simp [facadeLog, spawnTask, hT]

theorem facadeLog_updates (s : Sys) (L : List Metric) :
    (facadeLog s L).2.updates = s.updates := by
  by_cases hT : s.d.task = none <;> simp [facadeLog, spawnTask, hT]

theorem facadeLog_is_end (s : Sys) (L : List Metric) :
    (facadeLog s L).2.is_end = s.is_end := by
  by_cases hT : s.d.task = none <;> simp [facadeLog, spawnTask, hT]

theorem facadeLog_workers (s : Sys) (L : List Metric) :
    (facadeLog s L).2.workers =
      (if s.d.task = none then s.workers ++ [⟨.top, none⟩] else s.workers) := by
  by_cases hT : s.d.task = none <;> simp [facadeLog, spawnTask, hT]

theorem facadeLog_metrics (s : Sys) (L : List Metric) :
    (facadeLog s L).2.d.metrics = s.d.metrics ++ L := by
  by_cases hT : s.d.task = none <;>
    simp [facadeLog, spawnTask, hT, Data.takeError_metrics]

theorem facadeLog_status (s : Sys) (L : List Metric) :
    (facadeLog s L).2.d.status = s.d.status := by
  by_cases hT : s.d.task = none <;>
    simp [facadeLog, spawnTask, hT, Data.takeError_status]

theorem facadeLog_end_time (s : Sys) (L : List Metric) :
    (facadeLog s L).2.d.end_time = s.d.end_time := by
  by_cases hT : s.d.task = none <;>
    simp [facadeLog, spawnTask, hT, Data.takeError_end_time]

theorem facadeLog_error (s : Sys) (L : List Metric)
    (h : ∀ hh, s.d.task = some hh → hh.finished = false) :
    (facadeLog s L).2.d.error = none := by
  by_cases hT : s.d.task = none <;> simp only [facadeLog, spawnTask, hT] <;> simp
  · apply Data.takeError_error_of_fresh
    intro hh hhh
    simp only [Option.some.injEq] at hhh
    rw [← hhh]
  · apply Data.takeError_error_of_fresh
    intro hh hhh
    exact h hh hhh

theorem facadeLog_task (s : Sys) (L : List Metric)
    (h : ∀ hh, s.d.task = some hh → hh.finished = false) :
    (facadeLog s L).2.d.task =
      (if s.d.task = none then some ⟨false, false⟩ else s.d.task) := by
  by_cases hT : s.d.task = none <;> simp only [facadeLog, spawnTask, hT] <;> simp [hT]
  · rw [Data.takeError_task_of_fresh]
    intro hh hhh
    simp only [Option.some.injEq] at hhh
    rw [← hhh]
  · rw [Data.takeError_task_of_fresh]
    intro hh hhh
    exact h hh hhh

theorem facadeLog_fst (s : Sys) (L : List Metric)
    (h : ∀ hh, s.d.task = some hh → hh.finished = false) :
    (facadeLog s L).1 =
      (match s.d.error with | some e => Except.error e | none => Except.ok ()) := by
  by_cases hT : s.d.task = none <;> simp only [facadeLog, spawnTask, hT] <;> simp
  · rw [Data.takeError_fst_of_fresh]
    intro hh hhh
    simp only [Option.some.injEq] at hhh
    rw [← hhh]
  · rw [Data.takeError_fst_of_fresh]
    intro hh hhh
    exact h hh hhh

theorem preInv_facadeLog (s : Sys) (L : List Metric) (h : PreInv s) :
    PreInv (facadeLog s L).2 := by
  have hfresh := h.fresh
  have hfr : ∀ hh, s.d.task = some hh → hh.finished = false :=
    fun hh hhh => (hfresh hh hhh).1
  constructor
  · rw [facadeLog_workers]
    by_cases hT : s.d.task = none
    · rw [if_pos hT, h.task_worker.mp hT]; simp
    · rw [if_neg hT]; exact h.one_worker
  · rw [facadeLog_task s L hfr, facadeLog_workers]
    by_cases hT : s.d.task = none
    · rw [if_pos hT, if_pos hT]; simp
    · rw [if_neg hT, if_neg hT]; exact h.task_worker
  · rw [facadeLog_task s L hfr]
    by_cases hT : s.d.task = none
    · rw [if_pos hT]
      intro hh hhh
      simp only [Option.some.injEq] at hhh
      rw [← hhh]
      exact ⟨rfl, rfl⟩
    · rw [if_neg hT]; exact hfresh
  · rw [facadeLog_status]; exact h.status_running
  · rw [facadeLog_updates]; exact h.no_updates
  · rw [facadeLog_is_end]; exact h.not_end
  · rw [facadeLog_workers]
    by_cases hT : s.d.task = none
    · rw [if_pos hT]
      intro w hw
      rcases List.mem_append.mp hw with hw | hw
      · exact h.pc_ok w hw
      · simp at hw; rw [hw]; left; rfl
    · rw [if_neg hT]; exact h.pc_ok

/-! ## Preservation of the invariant by worker micro-steps -/

theorem preInv_workerStep (s : Sys) (i : Nat) (net : Option Err) (h : PreInv s) :
    PreInv (workerStep s i net) := by
  rcases hG : s.workers[i]? with _ | w
  · simp only [workerStep, hG]
    exact h
  · obtain ⟨hw, hi⟩ := getElem_of_len_le_one h.one_worker hG
    subst hi
    have hne : s.workers ≠ [] := by rw [hw]; simp
    have hT : s.d.task ≠ none := fun hTn => hne (h.task_worker.mp hTn)
    rcases h.pc_ok w (by rw [hw]; simp) with hpc | ⟨b, hpc⟩
    · by_cases hguard : s.d.error = none ∧ s.d.metrics ≠ []
      · have hstep : workerStep s 0 net =
            { s with d := { s.d with metrics := [] },
                     workers := [{ w with pc := .sending s.d.metrics }] } := by
          simp [workerStep, hG, hpc, hguard.1, hguard.2, hw]
        rw [hstep]
        constructor
        · simp
        · simp only [List.cons_ne_self]
          constructor
          · intro hTn; exact absurd hTn hT
          · intro hfalse; simp at hfalse
        · exact h.fresh
        · exact h.status_running
        · exact h.no_updates
        · exact h.not_end
        · intro w2 hw2
          simp only [List.mem_singleton] at hw2
          rw [hw2]; right; exact ⟨s.d.metrics, rfl⟩
      · have hst : ¬s.d.status ≠ RunStatus.running := by simp [h.status_running]
        have hstep : workerStep s 0 net =
            { s with d := { s.d.pushError w.err with task := none }, workers := [] } := by
          simp only [workerStep, hG, hpc, if_neg hguard, if_neg hst]
          rw [hw]
          simp
        rw [hstep]
        constructor
        · simp
        · simp
        · intro hh hhh; exact absurd hhh (by simp)
        · show (s.d.pushError w.err).status = .running
          rw [Data.pushError_status]; exact h.status_running
        · exact h.no_updates
        · exact h.not_end
        · intro w2 hw2; simp at hw2
    · have hstep : workerStep s 0 net =
          { s with sent := s.sent ++ [b],
                   workers := [{ w with pc := .top, err := w.err.or net }] } := by
        simp [workerStep, hG, hpc, hw]
      rw [hstep]
      constructor
      · simp
      · simp only [List.cons_ne_self]
        constructor
        · intro hTn; exact absurd hTn hT
        · intro hfalse; simp at hfalse
      · exact h.fresh
      · exact h.status_running
      · exact h.no_updates
      · exact h.not_end
      · intro w2 hw2
        simp only [List.mem_singleton] at hw2
        rw [hw2]; left; rfl

/-- Under the invariant a worker micro-step is one of: nothing (no worker
at that index), taking the whole pending queue, exiting at the loop top,
or completing a batch send. -/
theorem workerStep_cases (s : Sys) (i : Nat) (net : Option Err) (h : PreInv s) :
    workerStep s i net = s ∨
    (∃ w, s.workers = [w] ∧ w.pc = .top ∧ s.d.error = none ∧ s.d.metrics ≠ [] ∧
      workerStep s i net =
        { s with d := { s.d with metrics := [] },
                 workers := [{ w with pc := .sending s.d.metrics }] }) ∨
    (∃ w, s.workers = [w] ∧ w.pc = .top ∧ ¬(s.d.error = none ∧ s.d.metrics ≠ []) ∧
      workerStep s i net =
        { s with d := { s.d.pushError w.err with task := none }, workers := [] }) ∨
    (∃ w b, s.workers = [w] ∧ w.pc = .sending b ∧
      workerStep s i net =
        { s with sent := s.sent ++ [b],
                 workers := [{ w with pc := .top, err := w.err.or net }] }) := by
  rcases hG : s.workers[i]? with _ | w
  · left; simp only [workerStep, hG]
  · obtain ⟨hw, hi⟩ := getElem_of_len_le_one h.one_worker hG
    subst hi
    rcases h.pc_ok w (by rw [hw]; simp) with hpc | ⟨b, hpc⟩
    · by_cases hguard : s.d.error = none ∧ s.d.metrics ≠ []
      · right; left
        exact ⟨w, hw, hpc, hguard.1, hguard.2,
          by simp [workerStep, hG, hpc, hguard.1, hguard.2, hw]⟩
      · right; right; left
        have hst : ¬s.d.status ≠ RunStatus.running := by simp [h.status_running]
        refine ⟨w, hw, hpc, hguard, ?_⟩
        simp only [workerStep, hG, hpc, if_neg hguard, if_neg hst]
        rw [hw]; simp
    · right; right; right
      refine ⟨w, b, hw, hpc, ?_⟩
      simp [workerStep, hG, hpc, hw]

/-- A worker micro-step moves records between the three places but never
creates, duplicates, reorders, or drops one. -/
theorem accounted_workerStep (s : Sys) (i : Nat) (net : Option Err) (h : PreInv s) :
    (workerStep s i net).accounted = s.accounted := by
  rcases workerStep_cases s i net h with
    hs | ⟨w, hw, hpc, hE, hM, hs⟩ | ⟨w, hw, hpc, hg, hs⟩ | ⟨w, b, hw, hpc, hs⟩
  · rw [hs]
  · rw [hs]
    simp [Sys.accounted, Sys.inFlight, Worker.inFlight, hw, hpc]
  · rw [hs]
    simp [Sys.accounted, Sys.inFlight, Worker.inFlight, hw, hpc, Data.pushError_metrics]
  · rw [hs]
    simp [Sys.accounted, Sys.inFlight, Worker.inFlight, hw, hpc]

theorem errFree_workerStep (s : Sys) (i : Nat) (h : PreInv s) (he : ErrFree s) :
    ErrFree (workerStep s i none) := by
  rcases workerStep_cases s i none h with
    hs | ⟨w, hw, hpc, hE, hM, hs⟩ | ⟨w, hw, hpc, hg, hs⟩ | ⟨w, b, hw, hpc, hs⟩
  · rw [hs]; exact he
  · rw [hs]
    constructor
    · exact he.no_err
    · intro w2 hw2
      simp only [List.mem_singleton] at hw2
      rw [hw2]
      exact he.workers_err w (by rw [hw]; simp)
  · rw [hs]
    constructor
    · show (s.d.pushError w.err).error = none
      rw [Data.pushError_of_none s.d he.no_err]
      exact he.workers_err w (by rw [hw]; simp)
    · intro w2 hw2; simp at hw2
  · rw [hs]
    constructor
    · exact he.no_err
    · intro w2 hw2
      simp only [List.mem_singleton] at hw2
      rw [hw2]
      show (w.err.or none) = none
      rw [Option.or_none]
      exact he.workers_err w (by rw [hw]; simp)

theorem errFree_facadeLog (s : Sys) (L : List Metric) (h : PreInv s)
    (hwe : ∀ w ∈ s.workers, w.err = none) :
    ErrFree (facadeLog s L).2 := by
  constructor
  · exact facadeLog_error s L (fun hh hhh => (h.fresh hh hhh).1)
  · rw [facadeLog_workers]
    by_cases hT : s.d.task = none
    · rw [if_pos hT]
      intro w hw
      rcases List.mem_append.mp hw with hw | hw
      · exact hwe w hw
      · simp at hw; rw [hw]
    · rw [if_neg hT]; exact hwe

theorem accounted_facadeLog (s : Sys) (L : List Metric) :
    (facadeLog s L).2.accounted = s.accounted ++ L := by
  unfold Sys.accounted
  rw [facadeLog_sent, facadeLog_metrics]
  have : (facadeLog s L).2.inFlight = s.inFlight := by
    unfold Sys.inFlight
    rw [facadeLog_workers]
    by_cases hT : s.d.task = none
    · rw [if_pos hT]; simp [Worker.inFlight]
    · rw [if_neg hT]
  rw [this]
  simp

/-! ## Folding the invariants over a command list -/

theorem preInv_execCmd (s : Sys) (c : Cmd) (h : PreInv s) : PreInv (execCmd s c) := by
  cases c with
  | logMetric k v t st => exact preInv_facadeLog s [⟨k, v, t, st⟩] h
  | logMetrics kvs t st => exact preInv_facadeLog s (kvs.map fun kv => ⟨kv.1, kv.2, t, st⟩) h
  | wstep i net => exact preInv_workerStep s i net h

theorem accounted_execCmd (s : Sys) (c : Cmd) (h : PreInv s) :
    (execCmd s c).accounted = s.accounted ++ cmdMetrics c := by
  cases c with
  | logMetric k v t st =>
    rw [show execCmd s (.logMetric k v t st) = (logMetricStep s k v t st).2 from rfl,
      logMetricStep_eq, accounted_facadeLog]
    rfl
  | logMetrics kvs t st =>
    rw [show execCmd s (.logMetrics kvs t st) = (logMetricsStep s kvs t st).2 from rfl,
      logMetricsStep_eq, accounted_facadeLog]
    rfl
  | wstep i net =>
    rw [show execCmd s (.wstep i net) = workerStep s i net from rfl,
      accounted_workerStep s i net h]
    simp [cmdMetrics]

theorem errFree_execCmd (s : Sys) (c : Cmd) (h : PreInv s) (he : ErrFree s)
    (hok : c.isOk = true) : ErrFree (execCmd s c) := by
  cases c with
  | logMetric k v t st => exact errFree_facadeLog s [⟨k, v, t, st⟩] h he.workers_err
  | logMetrics kvs t st => exact errFree_facadeLog s (kvs.map fun kv => ⟨kv.1, kv.2, t, st⟩) h he.workers_err
  | wstep i net =>
    have hnet : net = none := by simpa [Cmd.isOk] using hok
    rw [show execCmd s (.wstep i net) = workerStep s i net from rfl, hnet]
    exact errFree_workerStep s i h he

theorem exec_nil (s : Sys) : exec [] s = s := rfl

theorem exec_cons (c : Cmd) (cs : List Cmd) (s : Sys) :
    exec (c :: cs) s = exec cs (execCmd s c) := rfl

theorem enqueued_nil : enqueued [] = [] := rfl

theorem enqueued_cons (c : Cmd) (cs : List Cmd) :
    enqueued (c :: cs) = cmdMetrics c ++ enqueued cs := by
  simp [enqueued]

theorem preInv_exec (cmds : List Cmd) (s : Sys) (h : PreInv s) : PreInv (exec cmds s) := by
  induction cmds generalizing s with
  | nil => exact h
  | cons c cs ih =>
    rw [exec_cons]
    exact ih (execCmd s c) (preInv_execCmd s c h)

theorem accounted_exec (cmds : List Cmd) (s : Sys) (h : PreInv s) :
    (exec cmds s).accounted = s.accounted ++ enqueued cmds := by
  induction cmds generalizing s with
  | nil => simp [exec_nil, enqueued_nil]
  | cons c cs ih =>
    rw [exec_cons, ih (execCmd s c) (preInv_execCmd s c h), accounted_execCmd s c h,
      enqueued_cons, List.append_assoc]

theorem errFree_exec (cmds : List Cmd) (s : Sys) (h : PreInv s) (he : ErrFree s)
    (hok : allSuccess cmds = true) : ErrFree (exec cmds s) := by
  induction cmds generalizing s with
  | nil => exact he
  | cons c cs ih =>
    rw [exec_cons]
    simp only [allSuccess, List.all_cons, Bool.and_eq_true] at hok
    exact ih (execCmd s c) (preInv_execCmd s c h)
      (errFree_execCmd s c h he hok.1) (by simp [allSuccess, hok.2])

theorem workerStep_is_end (s : Sys) (i : Nat) (net : Option Err) :
    (workerStep s i net).is_end = s.is_end := by
  rcases hG : s.workers[i]? with _ | w
  · simp only [workerStep, hG]
  · cases hpc : w.pc with
    | top =>
      by_cases h1 : s.d.error = none ∧ s.d.metrics ≠ []
      · simp only [workerStep, hG, hpc, if_pos h1]
      · by_cases h2 : s.d.status ≠ RunStatus.running <;>
          simp only [workerStep, hG, hpc, if_neg h1, if_pos h2, if_neg h2]
    | sending b => simp only [workerStep, hG, hpc]
    | updating st et => simp only [workerStep, hG, hpc]
    | exiting => simp only [workerStep, hG, hpc]

theorem is_end_exec (cmds : List Cmd) (s : Sys) : (exec cmds s).is_end = s.is_end := by
  induction cmds generalizing s with
  | nil => rfl
  | cons c cs ih =>
    rw [exec_cons, ih (execCmd s c)]
    cases c with
    | logMetric k v t st => exact facadeLog_is_end s _
    | logMetrics kvs t st => exact facadeLog_is_end s _
    | wstep i net => exact workerStep_is_end s i net

/-! ## The joined worker runs deterministically to completion -/

theorem Data.pushError_eq_of_none (d : Data) (h : d.error = none) (e : Option Err) :
    d.pushError e = { d with error := e } := by
  unfold Data.pushError; simp [h]

theorem runWorker_nil (fuel : Nat) (nets : List (Option Err)) (s : Sys)
    (hw : s.workers = []) : runWorker fuel nets s = s := by
  cases fuel with
  | zero => rfl
  | succ k => simp only [runWorker, hw]

theorem runWorker_succ_top (k : Nat) (nets : List (Option Err)) (s : Sys)
    (er : Option Err) (hw : s.workers = [⟨.top, er⟩]) :
    runWorker (k + 1) nets s = runWorker k nets (workerStep s 0 none) := by
  conv_lhs => rw [runWorker]
  rw [hw]

theorem runWorker_succ_sending (k : Nat) (nets : List (Option Err)) (s : Sys)
    (er : Option Err) (b : List Metric) (hw : s.workers = [⟨.sending b, er⟩]) :
    runWorker (k + 1) nets s =
      runWorker k nets.tail (workerStep s 0 (nets.headD none)) := by
  conv_lhs => rw [runWorker]
  rw [hw]

theorem runWorker_succ_updating (k : Nat) (nets : List (Option Err)) (s : Sys)
    (er : Option Err) (st0 : RunStatus) (et0 : Option Int)
    (hw : s.workers = [⟨.updating st0 et0, er⟩]) :
    runWorker (k + 1) nets s =
      runWorker k nets.tail (workerStep s 0 (nets.headD none)) := by
  conv_lhs => rw [runWorker]
  rw [hw]

theorem runWorker_succ_exiting (k : Nat) (nets : List (Option Err)) (s : Sys)
    (er : Option Err) (hw : s.workers = [⟨.exiting, er⟩]) :
    runWorker (k + 1) nets s = runWorker k nets (workerStep s 0 none) := by
  conv_lhs => rw [runWorker]
  rw [hw]

theorem runWorker_exiting (fuel : Nat) (nets : List (Option Err)) (s : Sys)
    (er : Option Err) (hf : 1 ≤ fuel) (hw : s.workers = [⟨.exiting, er⟩]) :
    runWorker fuel nets s =
      { s with d := { s.d.pushError er with task := none }, workers := [] } := by
  obtain ⟨k, rfl⟩ : ∃ k, fuel = k + 1 := ⟨fuel - 1, by omega⟩
  have hG : s.workers[0]? = some ⟨.exiting, er⟩ := by rw [hw]; rfl
  rw [runWorker_succ_exiting k nets s er hw]
  rw [show workerStep s 0 (none : Option Err) =
      { s with d := { s.d.pushError er with task := none }, workers := [] } by
    simp only [workerStep, hG]
    rw [hw]
    simp]
  exact runWorker_nil k nets _ rfl

theorem runWorker_updating (fuel : Nat) (nets : List (Option Err)) (s : Sys)
    (st0 : RunStatus) (et0 : Option Int) (er : Option Err)
    (hf : 2 ≤ fuel) (hw : s.workers = [⟨.updating st0 et0, er⟩]) :
    runWorker fuel nets s =
      { s with d := { s.d.pushError (er.or (nets.headD none)) with task := none },
               workers := [],
               updates := s.updates ++ [⟨some st0, et0, none⟩] } := by
  obtain ⟨k, rfl⟩ : ∃ k, fuel = k + 1 := ⟨fuel - 1, by omega⟩
  have hG : s.workers[0]? = some ⟨.updating st0 et0, er⟩ := by rw [hw]; rfl
  rw [runWorker_succ_updating k nets s er st0 et0 hw]
  rw [show workerStep s 0 (nets.headD none) =
      { s with updates := s.updates ++ [⟨some st0, et0, none⟩],
               workers := [⟨.exiting, er.or (nets.headD none)⟩] } by
    simp only [workerStep, hG]
    rw [hw]
    simp]
  rw [runWorker_exiting k nets.tail _ (er.or (nets.headD none)) (by omega) rfl]

/-- Worker joined at the loop top, nothing to drain (stored error or empty
queue): one terminal update is issued, then the worker pushes its error and
exits. -/
theorem runWorker_top_nodrain (fuel : Nat) (nets : List (Option Err)) (s : Sys)
    (er : Option Err) (hf : 3 ≤ fuel) (hw : s.workers = [⟨.top, er⟩])
    (hg : ¬(s.d.error = none ∧ s.d.metrics ≠ [])) (hst : s.d.status ≠ .running) :
    runWorker fuel nets s =
      { s with d := { s.d.pushError (er.or (nets.headD none)) with task := none },
               workers := [],
               updates := s.updates ++ [⟨some s.d.status, s.d.end_time, none⟩] } := by
  obtain ⟨k, rfl⟩ : ∃ k, fuel = k + 1 := ⟨fuel - 1, by omega⟩
  have hG : s.workers[0]? = some ⟨.top, er⟩ := by rw [hw]; rfl
  rw [runWorker_succ_top k nets s er hw]
  rw [show workerStep s 0 none =
      { s with workers := [⟨.updating s.d.status s.d.end_time, er⟩] } by
    simp only [workerStep, hG]
    rw [if_neg hg, if_pos hst, hw]
    simp]
  rw [runWorker_updating k nets _ s.d.status s.d.end_time er (by omega) rfl]

/-- Worker joined at the loop top with pending metrics and no stored error:
the whole queue is taken and sent as one batch, then one terminal update is
issued, then the worker pushes its error and exits. -/
theorem runWorker_top_drain (fuel : Nat) (nets : List (Option Err)) (s : Sys)
    (er : Option Err) (hf : 5 ≤ fuel) (hw : s.workers = [⟨.top, er⟩])
    (hE : s.d.error = none) (hM : s.d.metrics ≠ []) (hst : s.d.status ≠ .running) :
    runWorker fuel nets s =
      { s with d := { s.d with
                        metrics := [],
                        error := (er.or (nets.headD none)).or (nets.tail.headD none),
                        task := none },
               workers := [],
               sent := s.sent ++ [s.d.metrics],
               updates := s.updates ++ [⟨some s.d.status, s.d.end_time, none⟩] } := by
  obtain ⟨k, rfl⟩ : ∃ k, fuel = k + 2 := ⟨fuel - 2, by omega⟩
  have hG : s.workers[0]? = some ⟨.top, er⟩ := by rw [hw]; rfl
  rw [runWorker_succ_top (k + 1) nets s er hw]
  rw [show workerStep s 0 none =
      { s with d := { s.d with metrics := [] },
               workers := [⟨.sending s.d.metrics, er⟩] } by
    simp only [workerStep, hG]
    rw [if_pos ⟨hE, hM⟩, hw]
    simp]
  rw [runWorker_succ_sending k nets _ er s.d.metrics rfl]
  rw [show workerStep
        { s with d := { s.d with metrics := [] },
                 workers := [⟨.sending s.d.metrics, er⟩] } 0 (nets.headD none) =
      { s with d := { s.d with metrics := [] },
               workers := [⟨.top, er.or (nets.headD none)⟩],
               sent := s.sent ++ [s.d.metrics] } by
    simp only [workerStep]
    simp]
  rw [runWorker_top_nodrain k nets.tail _ (er.or (nets.headD none)) (by omega) rfl
    (by simp) (by simpa using hst)]
  rw [Data.pushError_eq_of_none _ (by simpa using hE)]

/-- Worker joined mid-send, nothing further to drain: finish the send,
issue one terminal update, push the first error, exit. -/
theorem runWorker_sending_nodrain (fuel : Nat) (nets : List (Option Err)) (s : Sys)
    (er : Option Err) (b : List Metric) (hf : 4 ≤ fuel)
    (hw : s.workers = [⟨.sending b, er⟩])
    (hg : ¬(s.d.error = none ∧ s.d.metrics ≠ [])) (hst : s.d.status ≠ .running) :
    runWorker fuel nets s =
      { s with d := { s.d.pushError
                        ((er.or (nets.headD none)).or (nets.tail.headD none))
                      with task := none },
               workers := [],
               sent := s.sent ++ [b],
               updates := s.updates ++ [⟨some s.d.status, s.d.end_time, none⟩] } := by
  obtain ⟨k, rfl⟩ : ∃ k, fuel = k + 1 := ⟨fuel - 1, by omega⟩
  have hG : s.workers[0]? = some ⟨.sending b, er⟩ := by rw [hw]; rfl
  rw [runWorker_succ_sending k nets s er b hw]
  rw [show workerStep s 0 (nets.headD none) =
      { s with sent := s.sent ++ [b],
               workers := [⟨.top, er.or (nets.headD none)⟩] } by
    simp only [workerStep, hG]
    rw [hw]
    simp]
  rw [runWorker_top_nodrain k nets.tail _ (er.or (nets.headD none)) (by omega) rfl
    (by simpa using hg) (by simpa using hst)]

/-- Worker joined mid-send with pending metrics and no stored error: finish
the send, take and send the whole queue as one batch, issue one terminal
update, push the first error, exit. -/
theorem runWorker_sending_drain (fuel : Nat) (nets : List (Option Err)) (s : Sys)
    (er : Option Err) (b : List Metric) (hf : 6 ≤ fuel)
    (hw : s.workers = [⟨.sending b, er⟩])
    (hE : s.d.error = none) (hM : s.d.metrics ≠ []) (hst : s.d.status ≠ .running) :
    runWorker fuel nets s =
      { s with d := { s.d with
                        metrics := [],
                        error := ((er.or (nets.headD none)).or
                          (nets.tail.headD none)).or (nets.tail.tail.headD none),
                        task := none },
               workers := [],
               sent := (s.sent ++ [b]) ++ [s.d.metrics],
               updates := s.updates ++ [⟨some s.d.status, s.d.end_time, none⟩] } := by
  obtain ⟨k, rfl⟩ : ∃ k, fuel = k + 1 := ⟨fuel - 1, by omega⟩
  have hG : s.workers[0]? = some ⟨.sending b, er⟩ := by rw [hw]; rfl
  rw [runWorker_succ_sending k nets s er b hw]
  rw [show workerStep s 0 (nets.headD none) =
      { s with sent := s.sent ++ [b],
               workers := [⟨.top, er.or (nets.headD none)⟩] } by
    simp only [workerStep, hG]
    rw [hw]
    simp]
  rw [runWorker_top_drain k nets.tail _ (er.or (nets.headD none)) (by omega) rfl
    (by simpa using hE) (by simpa using hM) (by simpa using hst)]

theorem Data.takeError_snd_of_none (d : Data) (h : d.task = none) :
    d.takeError.2 = { d with error := none } := by
  rcases hE : d.error with _ | e
  · cases d
    simp_all [Data.takeError]
  · simp [Data.takeError, h, hE]

/-! ## Behaviour of the finalize protocol end() -/

theorem Data.pushError_id_of_some (d : Data) (e0 : Err) (h : d.error = some e0)
    (e : Option Err) : d.pushError e = d := by
  unfold Data.pushError; simp [h]

/-- Under the invariant, end(st) with st a terminal status always: spawns
or reuses the single worker, waits for it to exit, records exactly one
terminal update carrying st and the end time taken at finalize time, and
leaves an empty worker list and a clear handle; the batches sent plus the
records dropped are exactly the accounted records; when no error was ever
recorded and every network operation succeeds, nothing is dropped and the
caller gets Ok. -/
theorem endRun_cases (s : Sys) (st : RunStatus) (t : Int) (nets : List (Option Err))
    (h : PreInv s) (hst : st ≠ .running) :
    ∃ (E : Option Err) (M : List Metric) (S : List (List Metric)),
      (endRun s st t nets).1 =
        (match E with | some e => Except.error e | none => Except.ok ()) ∧
      (endRun s st t nets).2 =
        { d := { metrics := M, error := none, status := st, end_time := some t,
                 task := none },
          workers := [], sent := S,
          updates := s.updates ++ [⟨some st, some t, none⟩], is_end := true } ∧
      S.flatten ++ M = s.accounted ∧
      (nets = [] → ErrFree s → E = none ∧ M = []) := by
  have hacc : s.accounted = s.sent.flatten ++ s.inFlight ++ s.d.metrics := rfl
  by_cases hT : s.d.task = none
  case pos =>
    have hw0 : s.workers = [] := h.task_worker.mp hT
    have hred : endRun s st t nets =
        ((runWorker joinFuel nets
            { d := { metrics := s.d.metrics, error := s.d.error, status := st,
                     end_time := some t, task := none },
              workers := [⟨.top, none⟩], sent := s.sent, updates := s.updates,
              is_end := true }).d.takeError.1,
          { runWorker joinFuel nets
              { d := { metrics := s.d.metrics, error := s.d.error, status := st,
                       end_time := some t, task := none },
                workers := [⟨.top, none⟩], sent := s.sent, updates := s.updates,
                is_end := true } with
            d := (runWorker joinFuel nets
              { d := { metrics := s.d.metrics, error := s.d.error, status := st,
                       end_time := some t, task := none },
                workers := [⟨.top, none⟩], sent := s.sent, updates := s.updates,
                is_end := true }).d.takeError.2 }) := by
      simp only [endRun, spawnTask, hT, hw0]
      simp
    rw [hred]
    by_cases hg : s.d.error = none ∧ s.d.metrics ≠ []
    case pos =>
      rw [runWorker_top_drain joinFuel nets _ none (by norm_num [joinFuel]) rfl
        (by simpa using hg.1) (by simpa using hg.2) (by simpa using hst)]
      refine ⟨((none : Option Err).or (nets.headD none)).or (nets.tail.headD none),
        [], s.sent ++ [s.d.metrics], ?_, ?_, ?_, ?_⟩
      · rw [Data.takeError_fst_of_none _ rfl]
      · rw [Data.takeError_snd_of_none _ rfl]
      · rw [hacc]
        simp [Sys.inFlight, hw0]
      · intro hnets he
        subst hnets
        simp
    case neg =>
      rw [runWorker_top_nodrain joinFuel nets _ none (by norm_num [joinFuel]) rfl
        (by simpa using hg) (by simpa using hst)]
      rcases hE : s.d.error with _ | e0
      · simp only [Data.pushError]
        simp only [Option.isNone_none, if_true]
        refine ⟨(none : Option Err).or (nets.headD none), s.d.metrics, s.sent,
          ?_, ?_, ?_, ?_⟩
        · rw [Data.takeError_fst_of_none _ rfl]
        · rw [Data.takeError_snd_of_none _ rfl]
        · rw [hacc]
          simp [Sys.inFlight, hw0]
        · intro hnets he
          subst hnets
          have hM : s.d.metrics = [] := by
            by_contra hne
            exact hg ⟨hE, hne⟩
          simp [hM]
      · simp only [Data.pushError]
        simp only [Option.isNone_some, Bool.false_eq_true, if_false]
        refine ⟨some e0, s.d.metrics, s.sent, ?_, ?_, ?_, ?_⟩
        · rw [Data.takeError_fst_of_none _ rfl]
        · rw [Data.takeError_snd_of_none _ rfl]
        · rw [hacc]
          simp [Sys.inFlight, hw0]
        · intro hnets he
          rw [he.no_err] at hE
          exact absurd hE (by simp)
  case neg =>
    obtain ⟨w, hw⟩ : ∃ w, s.workers = [w] := by
      rcases hws : s.workers with _ | ⟨w, tl⟩
      · exact absurd (h.task_worker.mpr hws) hT
      · rcases tl with _ | ⟨w2, tl2⟩
        · exact ⟨w, rfl⟩
        · have h1 := h.one_worker
          rw [hws] at h1
          simp at h1
    obtain ⟨h0, hT0⟩ : ∃ h0, s.d.task = some h0 := by
      rcases hT0 : s.d.task with _ | h0
      · exact absurd hT0 hT
      · exact ⟨h0, rfl⟩
    have hfr := h.fresh h0 hT0
    have hwe : ∀ he2 : ErrFree s, w.err = none := fun he2 =>
      he2.workers_err w (by rw [hw]; simp)
    have hred : endRun s st t nets =
        ((runWorker joinFuel nets
            { d := { metrics := s.d.metrics, error := s.d.error, status := st,
                     end_time := some t, task := none },
              workers := [w], sent := s.sent, updates := s.updates,
              is_end := true }).d.takeError.1,
          { runWorker joinFuel nets
              { d := { metrics := s.d.metrics, error := s.d.error, status := st,
                       end_time := some t, task := none },
                workers := [w], sent := s.sent, updates := s.updates,
                is_end := true } with
            d := (runWorker joinFuel nets
              { d := { metrics := s.d.metrics, error := s.d.error, status := st,
                       end_time := some t, task := none },
                workers := [w], sent := s.sent, updates := s.updates,
                is_end := true }).d.takeError.2 }) := by
      simp only [endRun, spawnTask, hT0, hw]
      simp [hfr.2]
    rw [hred]
    rcases h.pc_ok w (by rw [hw]; simp) with hpc | ⟨b, hpc⟩
    · have hwrec : w = (⟨.top, w.err⟩ : Worker) := by cases w; simp_all
      by_cases hg : s.d.error = none ∧ s.d.metrics ≠ []
      case pos =>
        rw [runWorker_top_drain joinFuel nets _ w.err (by norm_num [joinFuel])
          (by rw [hwrec]) (by simpa using hg.1) (by simpa using hg.2)
          (by simpa using hst)]
        refine ⟨(w.err.or (nets.headD none)).or (nets.tail.headD none),
          [], s.sent ++ [s.d.metrics], ?_, ?_, ?_, ?_⟩
        · rw [Data.takeError_fst_of_none _ rfl]
        · rw [Data.takeError_snd_of_none _ rfl]
        · rw [hacc]
          simp [Sys.inFlight, hw, Worker.inFlight, hpc]
        · intro hnets he
          subst hnets
          simp [hwe he]
      case neg =>
        rw [runWorker_top_nodrain joinFuel nets _ w.err (by norm_num [joinFuel])
          (by rw [hwrec]) (by simpa using hg) (by simpa using hst)]
        rcases hE : s.d.error with _ | e0
        · simp only [Data.pushError]
          simp only [Option.isNone_none, if_true]
          refine ⟨w.err.or (nets.headD none), s.d.metrics, s.sent, ?_, ?_, ?_, ?_⟩
          · rw [Data.takeError_fst_of_none _ rfl]
          · rw [Data.takeError_snd_of_none _ rfl]
          · rw [hacc]
            simp [Sys.inFlight, hw, Worker.inFlight, hpc]
          · intro hnets he
            subst hnets
            have hM : s.d.metrics = [] := by
              by_contra hne
              exact hg ⟨hE, hne⟩
            simp [hM, hwe he]
        · simp only [Data.pushError]
          simp only [Option.isNone_some, Bool.false_eq_true, if_false]
          refine ⟨some e0, s.d.metrics, s.sent, ?_, ?_, ?_, ?_⟩
          · rw [Data.takeError_fst_of_none _ rfl]
          · rw [Data.takeError_snd_of_none _ rfl]
          · rw [hacc]
            simp [Sys.inFlight, hw, Worker.inFlight, hpc]
          · intro hnets he
            rw [he.no_err] at hE
            exact absurd hE (by simp)
    · have hwrec : w = (⟨.sending b, w.err⟩ : Worker) := by cases w; simp_all
      by_cases hg : s.d.error = none ∧ s.d.metrics ≠ []
      case pos =>
        rw [runWorker_sending_drain joinFuel nets _ w.err b (by norm_num [joinFuel])
          (by rw [hwrec]) (by simpa using hg.1) (by simpa using hg.2)
          (by simpa using hst)]
        refine ⟨((w.err.or (nets.headD none)).or (nets.tail.headD none)).or
            (nets.tail.tail.headD none),
          [], (s.sent ++ [b]) ++ [s.d.metrics], ?_, ?_, ?_, ?_⟩
        · rw [Data.takeError_fst_of_none _ rfl]
        · rw [Data.takeError_snd_of_none _ rfl]
        · rw [hacc]
          simp [Sys.inFlight, hw, Worker.inFlight, hpc]
        · intro hnets he
          subst hnets
          simp [hwe he]
      case neg =>
        rw [runWorker_sending_nodrain joinFuel nets _ w.err b (by norm_num [joinFuel])
          (by rw [hwrec]) (by simpa using hg) (by simpa using hst)]
        rcases hE : s.d.error with _ | e0
        · simp only [Data.pushError]
          simp only [Option.isNone_none, if_true]
          refine ⟨(w.err.or (nets.headD none)).or (nets.tail.headD none),
            s.d.metrics, s.sent ++ [b], ?_, ?_, ?_, ?_⟩
          · rw [Data.takeError_fst_of_none _ rfl]
          · rw [Data.takeError_snd_of_none _ rfl]
          · rw [hacc]
            simp [Sys.inFlight, hw, Worker.inFlight, hpc]
          · intro hnets he
            subst hnets
            have hM : s.d.metrics = [] := by
              by_contra hne
              exact hg ⟨hE, hne⟩
            simp [hM, hwe he]
        · simp only [Data.pushError]
          simp only [Option.isNone_some, Bool.false_eq_true, if_false]
          refine ⟨some e0, s.d.metrics, s.sent ++ [b], ?_, ?_, ?_, ?_⟩
          · rw [Data.takeError_fst_of_none _ rfl]
          · rw [Data.takeError_snd_of_none _ rfl]
          · rw [hacc]
            simp [Sys.inFlight, hw, Worker.inFlight, hpc]
          · intro hnets he
            rw [he.no_err] at hE
            exact absurd hE (by simp)

/-! ## The claims -/

/-- C1: for every sequence of log_metric / log_metrics calls interleaved
with worker steps on one writer, followed by finish(), when every network
operation succeeds each enqueued metric is passed to exactly one log_batch
call — no duplication, no loss — and the concatenation of the batches, in
the order they were sent, is exactly the enqueue order (the whole pending
queue is taken as one FIFO unit); at the end nothing is left pending. -/
theorem c1_every_metric_in_exactly_one_batch_fifo (cmds : List Cmd) (t : Int)
    (hok : allSuccess cmds = true) :
    ((finishRun (exec cmds initSys) t []).2).sent.flatten = enqueued cmds ∧
    ((finishRun (exec cmds initSys) t []).2).d.metrics = [] ∧
    ((finishRun (exec cmds initSys) t []).2).workers = [] := by
  have hP := preInv_exec cmds initSys preInv_init
  have hE := errFree_exec cmds initSys preInv_init errFree_init hok
  obtain ⟨E, M, S, h1, h2, h3, h4⟩ :=
    endRun_cases (exec cmds initSys) .finished t [] hP (by decide)
  obtain ⟨hEn, hMn⟩ := h4 rfl hE
  have hsent : ((finishRun (exec cmds initSys) t []).2).sent = S := by
    rw [finishRun, h2]
  have hmet : ((finishRun (exec cmds initSys) t []).2).d.metrics = M := by
    rw [finishRun, h2]
  have hwk : ((finishRun (exec cmds initSys) t []).2).workers = [] := by
    rw [finishRun, h2]
  refine ⟨?_, ?_, hwk⟩
  · rw [hsent]
    rw [hMn] at h3
    simp only [List.append_nil] at h3
    rw [h3, accounted_exec cmds initSys preInv_init]
    simp [Sys.accounted, Sys.inFlight, initSys]
  · rw [hmet, hMn]

theorem c1_every_metric_in_exactly_one_batch_fifo_witness :
    allSuccess exCmds = true ∧
    (((finishRun (exec exCmds initSys) 300 []).2).sent.flatten = enqueued exCmds ∧
     ((finishRun (exec exCmds initSys) 300 []).2).d.metrics = [] ∧
     ((finishRun (exec exCmds initSys) 300 []).2).workers = []) :=
  ⟨by decide, c1_every_metric_in_exactly_one_batch_fifo exCmds 300 (by decide)⟩

/-- C3: in every reachable state of a writer there is at most one live
worker — also immediately after a finalize —, and spawn_task is the
identity whenever a handle is already stored, so a flush request issued
while a worker is active never spawns a second worker. -/
theorem c3_at_most_one_worker :
    (∀ cmds : List Cmd, (exec cmds initSys).workers.length ≤ 1) ∧
    (∀ (cmds : List Cmd) (st : RunStatus) (t : Int) (nets : List (Option Err)),
        st ≠ .running →
        ((endRun (exec cmds initSys) st t nets).2).workers.length ≤ 1) ∧
    (∀ s : Sys, s.d.task ≠ none → spawnTask s = s) := by
  refine ⟨?_, ?_, ?_⟩
  · intro cmds
    exact (preInv_exec cmds initSys preInv_init).one_worker
  · intro cmds st t nets hst
    obtain ⟨E, M, S, h1, h2, h3, h4⟩ :=
      endRun_cases (exec cmds initSys) st t nets (preInv_exec cmds initSys preInv_init) hst
    rw [h2]
    simp
  · intro s hT
    unfold spawnTask
    simp [hT]

theorem c3_at_most_one_worker_witness :
    (exec exCmds initSys).workers.length ≤ 1 ∧
    ((endRun (exec exCmds initSys) .killed 7 []).2).workers.length ≤ 1 ∧
    spawnTask { initSys with d := { initSys.d with task := some ⟨false, false⟩ } } =
      { initSys with d := { initSys.d with task := some ⟨false, false⟩ } } :=
  ⟨c3_at_most_one_worker.1 exCmds,
   c3_at_most_one_worker.2.1 exCmds .killed 7 [] (by decide),
   c3_at_most_one_worker.2.2 _ (by simp [initSys])⟩

/-- C4: finish() returns only once the worker it joined has exited (no
live worker and no stored handle remain), and when every network operation
succeeded it returns Ok and results in exactly one update_run call carrying
status Finished together with the end time taken at finalize time, which
bounds the timestamp of every metric sent, given that the wall clock never
ran backwards (every log call happened no later than the finalize). -/
theorem c4_finish_joins_and_updates_finished (cmds : List Cmd) (t : Int)
    (hok : allSuccess cmds = true)
    (hts : ∀ m ∈ enqueued cmds, m.timestamp ≤ t) :
    (finishRun (exec cmds initSys) t []).1 = Except.ok () ∧
    ((finishRun (exec cmds initSys) t []).2).workers = [] ∧
    ((finishRun (exec cmds initSys) t []).2).d.task = none ∧
    ((finishRun (exec cmds initSys) t []).2).updates =
      [⟨some .finished, some t, none⟩] ∧
    ((finishRun (exec cmds initSys) t []).2).d.status = .finished ∧
    ((finishRun (exec cmds initSys) t []).2).d.end_time = some t ∧
    ∀ b ∈ ((finishRun (exec cmds initSys) t []).2).sent, ∀ m ∈ b,
      m.timestamp ≤ t := by
  have hP := preInv_exec cmds initSys preInv_init
  have hE := errFree_exec cmds initSys preInv_init errFree_init hok
  obtain ⟨E, M, S, h1, h2, h3, h4⟩ :=
    endRun_cases (exec cmds initSys) .finished t [] hP (by decide)
  obtain ⟨hEn, hMn⟩ := h4 rfl hE
  have hS : S.flatten = enqueued cmds := by
    rw [hMn] at h3
    simp only [List.append_nil] at h3
    rw [h3, accounted_exec cmds initSys preInv_init]
    simp [Sys.accounted, Sys.inFlight, initSys]
  refine ⟨?_, ?_, ?_, ?_, ?_, ?_, ?_⟩
  · rw [finishRun, h1, hEn]
  · rw [finishRun, h2]
  · rw [finishRun, h2]
  · rw [finishRun, h2]
    show (exec cmds initSys).updates ++ _ = _
    rw [hP.no_updates]
    rfl
  · rw [finishRun, h2]
  · rw [finishRun, h2]
  · rw [finishRun, h2]
    intro b hb m hm
    exact hts m (by rw [← hS]; exact List.mem_flatten.mpr ⟨b, hb, hm⟩)

theorem c4_finish_joins_and_updates_finished_witness :
    allSuccess exCmds = true ∧
    ((finishRun (exec exCmds initSys) 300 []).1 = Except.ok () ∧
     ((finishRun (exec exCmds initSys) 300 []).2).updates =
       [⟨some .finished, some 300, none⟩]) :=
  ⟨by decide,
   (c4_finish_joins_and_updates_finished exCmds 300 (by decide)
      (by intro m hm; simp [enqueued, exCmds, cmdMetrics] at hm;
          rcases hm with rfl | rfl | rfl <;> decide)).1,
   (c4_finish_joins_and_updates_finished exCmds 300 (by decide)
      (by intro m hm; simp [enqueued, exCmds, cmdMetrics] at hm;
          rcases hm with rfl | rfl | rfl <;> decide)).2.2.2.1⟩

/-- C5: dropping a writer whose finish() was never called runs the same
finalize path end(Failed), discarding its result value: the run status is
set to Failed, an end time is recorded, and exactly one terminal
update_run is attempted (whatever the network outcomes are); dropping
after finish() (is_end already true) performs nothing. -/
theorem c5_drop_without_finish_fails_run :
    (∀ (s : Sys) (t : Int) (nets : List (Option Err)),
        s.is_end = true → dropWriter s t nets = s) ∧
    (∀ (cmds : List Cmd) (t : Int) (nets : List (Option Err)),
        dropWriter (exec cmds initSys) t nets =
          (endRun (exec cmds initSys) .failed t nets).2 ∧
        (dropWriter (exec cmds initSys) t nets).d.status = .failed ∧
        (dropWriter (exec cmds initSys) t nets).d.end_time = some t ∧
        (dropWriter (exec cmds initSys) t nets).updates =
          [⟨some .failed, some t, none⟩] ∧
        (dropWriter (exec cmds initSys) t nets).is_end = true) := by
  constructor
  · intro s t nets hend
    unfold dropWriter
    simp [hend]
  · intro cmds t nets
    have hP := preInv_exec cmds initSys preInv_init
    have hne : (exec cmds initSys).is_end = false := by
      rw [is_end_exec]
      rfl
    have hdw : dropWriter (exec cmds initSys) t nets =
        (endRun (exec cmds initSys) .failed t nets).2 := by
      unfold dropWriter
      simp [hne]
    obtain ⟨E, M, S, h1, h2, h3, h4⟩ :=
      endRun_cases (exec cmds initSys) .failed t nets hP (by decide)
    refine ⟨hdw, ?_, ?_, ?_, ?_⟩ <;> rw [hdw, h2]
    show (exec cmds initSys).updates ++ _ = _
    rw [hP.no_updates]
    rfl

theorem c5_drop_without_finish_fails_run_witness :
    dropWriter { initSys with is_end := true } 5 [] =
      { initSys with is_end := true } ∧
    (dropWriter (exec exCmds initSys) 400 []).d.status = .failed :=
  ⟨c5_drop_without_finish_fails_run.1 { initSys with is_end := true } 5 [] rfl,
   (c5_drop_without_finish_fails_run.2 exCmds 400 []).2.1⟩

/-- C7: log_metric and log_metrics append their record(s) — with timestamp
the call time, one shared timestamp for all records of a log_metrics
call — to the pending queue under the lock, leave a worker running, and
perform no network operation themselves (the sent and updates traces are
untouched by the call). -/
theorem c7_log_calls_buffer_and_spawn (s : Sys) (k : String) (v : F64) (t : Int)
    (st : Option Int) (kvs : List (String × F64)) (t2 : Int) (st2 : Option Int)
    (h : PreInv s) :
    (logMetricStep s k v t st).2.d.metrics = s.d.metrics ++ [⟨k, v, t, st⟩] ∧
    (logMetricsStep s kvs t2 st2).2.d.metrics =
      s.d.metrics ++ kvs.map (fun kv => ⟨kv.1, kv.2, t2, st2⟩) ∧
    (logMetricStep s k v t st).2.sent = s.sent ∧
    (logMetricStep s k v t st).2.updates = s.updates ∧
    (logMetricsStep s kvs t2 st2).2.sent = s.sent ∧
    (logMetricsStep s kvs t2 st2).2.updates = s.updates ∧
    (logMetricStep s k v t st).2.workers ≠ [] ∧
    (logMetricsStep s kvs t2 st2).2.workers ≠ [] := by
  rw [logMetricStep_eq, logMetricsStep_eq]
  have hwne : ∀ L : List Metric, (facadeLog s L).2.workers ≠ [] := by
    intro L
    rw [facadeLog_workers]
    by_cases hT : s.d.task = none
    · rw [if_pos hT]
      simp
    · rw [if_neg hT]
      exact fun hw => hT (h.task_worker.mpr hw)
  exact ⟨facadeLog_metrics s _, facadeLog_metrics s _, facadeLog_sent s _,
    facadeLog_updates s _, facadeLog_sent s _, facadeLog_updates s _,
    hwne _, hwne _⟩

theorem c7_log_calls_buffer_and_spawn_witness :
    (logMetricStep initSys "k" (.fin 3) 5 none).2.d.metrics =
      initSys.d.metrics ++ [⟨"k", .fin 3, 5, none⟩] ∧
    (logMetricsStep initSys [("a", .fin 1), ("b", .fin 2)] 6 none).2.d.metrics =
      initSys.d.metrics ++
        [("a", F64.fin 1), ("b", F64.fin 2)].map (fun kv => ⟨kv.1, kv.2, 6, none⟩) :=
  ⟨(c7_log_calls_buffer_and_spawn initSys "k" (.fin 3) 5 none
      [("a", .fin 1), ("b", .fin 2)] 6 none preInv_init).1,
   (c7_log_calls_buffer_and_spawn initSys "k" (.fin 3) 5 none
      [("a", .fin 1), ("b", .fin 2)] 6 none preInv_init).2.1⟩

set_option maxHeartbeats 1000000 in
/-- C10: log_metric and log_metrics append their record(s) before
take_error runs, so a call that surfaces a stored error still has the
records passed to that very call in the pending queue (they are not lost
by the error return), and under a later all-successful schedule followed
by finish() every one of those records appears in a sent batch. -/
theorem c10_error_return_does_not_lose_records (s : Sys) (k : String) (v : F64)
    (t : Int) (st : Option Int) (kvs : List (String × F64)) (t2 : Int)
    (st2 : Option Int) (h : PreInv s)
    (hwe : ∀ w ∈ s.workers, w.err = none) :
    (logMetricStep s k v t st).2.d.metrics = s.d.metrics ++ [⟨k, v, t, st⟩] ∧
    (logMetricsStep s kvs t2 st2).2.d.metrics =
      s.d.metrics ++ kvs.map (fun kv => ⟨kv.1, kv.2, t2, st2⟩) ∧
    (∀ e, (logMetricStep s k v t st).1 = Except.error e →
       (logMetricStep s k v t st).2.d.metrics = s.d.metrics ++ [⟨k, v, t, st⟩]) ∧
    (∀ e, (logMetricsStep s kvs t2 st2).1 = Except.error e →
       (logMetricsStep s kvs t2 st2).2.d.metrics =
         s.d.metrics ++ kvs.map (fun kv => ⟨kv.1, kv.2, t2, st2⟩)) ∧
    (∀ (cmds : List Cmd) (tf : Int), allSuccess cmds = true →
       (⟨k, v, t, st⟩ : Metric) ∈
         ((finishRun (exec cmds ((logMetricStep s k v t st).2)) tf []).2).sent.flatten) ∧
    (∀ (cmds : List Cmd) (tf : Int), allSuccess cmds = true →
       ∀ m ∈ kvs.map (fun kv => (⟨kv.1, kv.2, t2, st2⟩ : Metric)),
         m ∈ ((finishRun (exec cmds ((logMetricsStep s kvs t2 st2).2)) tf []).2).sent.flatten) := by
  have key : ∀ (L : List Metric) (cmds : List Cmd) (tf : Int), allSuccess cmds = true →
      ∀ m ∈ L,
        m ∈ ((finishRun (exec cmds ((facadeLog s L).2)) tf []).2).sent.flatten := by
    intro L cmds tf hok m hm
    have hP' : PreInv (facadeLog s L).2 := preInv_facadeLog s L h
    have hE' : ErrFree (facadeLog s L).2 := errFree_facadeLog s L h hwe
    have hPx := preInv_exec cmds _ hP'
    have hEx := errFree_exec cmds _ hP' hE' hok
    obtain ⟨E, M, S, h1, h2, h3, h4⟩ :=
      endRun_cases (exec cmds (facadeLog s L).2) .finished tf [] hPx (by decide)
    obtain ⟨hEn, hMn⟩ := h4 rfl hEx
    have hsent : ((finishRun (exec cmds ((facadeLog s L).2)) tf []).2).sent = S := by
      rw [finishRun, h2]
    rw [hsent]
    rw [hMn] at h3
    simp only [List.append_nil] at h3
    rw [h3, accounted_exec cmds _ hP']
    have hmem : m ∈ ((facadeLog s L).2).accounted := by
      unfold Sys.accounted
      rw [facadeLog_metrics]
      simp [hm]
    exact List.mem_append.mpr (Or.inl hmem)
  have hm1 : (logMetricStep s k v t st).2.d.metrics = s.d.metrics ++ [⟨k, v, t, st⟩] := by
    rw [logMetricStep_eq]
    exact facadeLog_metrics s _
  have hm2 : (logMetricsStep s kvs t2 st2).2.d.metrics =
      s.d.metrics ++ kvs.map (fun kv => ⟨kv.1, kv.2, t2, st2⟩) := by
    rw [logMetricsStep_eq]
    exact facadeLog_metrics s _
  refine ⟨hm1, hm2, fun e _ => hm1, fun e _ => hm2, ?_, ?_⟩
  · intro cmds tf hok
    rw [logMetricStep_eq]
    exact key [⟨k, v, t, st⟩] cmds tf hok _ (by simp)
  · intro cmds tf hok m hm
    rw [logMetricsStep_eq]
    exact key _ cmds tf hok m hm

theorem c10_error_return_does_not_lose_records_witness :
    ((logMetricStep errSys "k" (.fin 3) 5 none).1 =
       Except.error (.message "async failure")) ∧
    (logMetricStep errSys "k" (.fin 3) 5 none).2.d.metrics =
      errSys.d.metrics ++ [⟨"k", .fin 3, 5, none⟩] ∧
    ((logMetricsStep errSys [("a", .fin 1), ("b", .fin 2)] 6 none).1 =
       Except.error (.message "async failure")) ∧
    (logMetricsStep errSys [("a", .fin 1), ("b", .fin 2)] 6 none).2.d.metrics =
      errSys.d.metrics ++
        [("a", F64.fin 1), ("b", F64.fin 2)].map (fun kv => ⟨kv.1, kv.2, 6, none⟩) ∧
    (⟨"k", F64.fin 3, 5, none⟩ : Metric) ∈
      ((finishRun (exec [] ((logMetricStep errSys "k" (.fin 3) 5 none).2)) 50
        []).2).sent.flatten ∧
    (⟨"a", F64.fin 1, 6, none⟩ : Metric) ∈
      ((finishRun (exec [] ((logMetricsStep errSys [("a", .fin 1), ("b", .fin 2)] 6
        none).2)) 60 []).2).sent.flatten :=
  ⟨by rfl,
   (c10_error_return_does_not_lose_records errSys "k" (.fin 3) 5 none
      [("a", .fin 1), ("b", .fin 2)] 6 none
      (by constructor <;> simp [errSys, initSys]) (by simp [errSys, initSys])).2.2.1
     (.message "async failure") (by rfl),
   by rfl,
   (c10_error_return_does_not_lose_records errSys "k" (.fin 3) 5 none
      [("a", .fin 1), ("b", .fin 2)] 6 none
      (by constructor <;> simp [errSys, initSys]) (by simp [errSys, initSys])).2.2.2.1
     (.message "async failure") (by rfl),
   (c10_error_return_does_not_lose_records errSys "k" (.fin 3) 5 none
      [("a", .fin 1), ("b", .fin 2)] 6 none
      (by constructor <;> simp [errSys, initSys]) (by simp [errSys, initSys])).2.2.2.2.1
     [] 50 rfl,
   (c10_error_return_does_not_lose_records errSys "k" (.fin 3) 5 none
      [("a", .fin 1), ("b", .fin 2)] 6 none
      (by constructor <;> simp [errSys, initSys]) (by simp [errSys, initSys])).2.2.2.2.2
     [] 60 rfl (⟨"a", F64.fin 1, 6, none⟩ : Metric) (by simp)⟩

theorem Data.takeError_task_of_finished (d : Data) (h : JoinHandleM)
    (hT : d.task = some h) (hf : h.finished = true) :
    d.takeError.2.task = none := by
  rcases hp : h.joinPanicked <;> rcases hE : d.error with _ | e <;>
    simp [Data.takeError, hT, hf, hp, hE]

theorem Data.takeError_fst_of_panicked (d : Data) (h : JoinHandleM)
    (hT : d.task = some h) (hf : h.finished = true) (hp : h.joinPanicked = true) :
    d.takeError.1 = Except.error .taskJoinError := by
  simp [Data.takeError, hT, hf, hp]

/-- C6: take_error first reaps a stored handle whose thread has completed
(clearing the handle, an abnormal termination yielding TaskJoinError);
otherwise it returns the stored error and clears it — so a second call
right after returns Ok: each stored error is surfaced at most once — and
with no completed worker and no stored error it returns Ok(()). -/
theorem c6_take_error_consume_once :
    (∀ (d : Data) (h : JoinHandleM), d.task = some h → h.finished = true →
        d.takeError.2.task = none) ∧
    (∀ (d : Data) (h : JoinHandleM), d.task = some h → h.finished = true →
        h.joinPanicked = true →
        d.takeError.1 = Except.error .taskJoinError) ∧
    (∀ d : Data, (∀ hh, d.task = some hh → hh.finished = false) →
        d.takeError.1 =
          (match d.error with | some e => Except.error e | none => Except.ok ()) ∧
        d.takeError.2.error = none ∧
        d.takeError.2.takeError.1 = Except.ok ()) ∧
    (∀ d : Data, d.task = none → d.error = none →
        d.takeError.1 = Except.ok ()) := by
  refine ⟨Data.takeError_task_of_finished, Data.takeError_fst_of_panicked, ?_, ?_⟩
  · intro d hfr
    have htask := d.takeError_task_of_fresh hfr
    refine ⟨d.takeError_fst_of_fresh hfr, d.takeError_error_of_fresh hfr, ?_⟩
    have hfr2 : ∀ hh, d.takeError.2.task = some hh → hh.finished = false := by
      rw [htask]
      exact hfr
    rw [Data.takeError_fst_of_fresh _ hfr2, d.takeError_error_of_fresh hfr]
  · intro d hT hE
    rw [d.takeError_fst_of_none hT, hE]

theorem c6_take_error_consume_once_witness :
    (Data.takeError ⟨[], some (.message "x"), .running, none,
        some ⟨true, true⟩⟩).1 = Except.error .taskJoinError ∧
    (Data.takeError ⟨[], some (.message "x"), .running, none, none⟩).1 =
      Except.error (.message "x") ∧
    ((Data.takeError ⟨[], some (.message "x"), .running, none, none⟩).2.takeError).1 =
      Except.ok () ∧
    (Data.takeError ⟨[], none, .running, none, none⟩).1 = Except.ok () :=
  ⟨c6_take_error_consume_once.2.1 _ ⟨true, true⟩ rfl rfl rfl,
   (c6_take_error_consume_once.2.2.1 ⟨[], some (.message "x"), .running, none, none⟩
      (by intro hh hhh; simp at hhh)).1,
   (c6_take_error_consume_once.2.2.1 ⟨[], some (.message "x"), .running, none, none⟩
      (by intro hh hhh; simp at hhh)).2.2,
   c6_take_error_consume_once.2.2.2 ⟨[], none, .running, none, none⟩ rfl rfl⟩

/-- C2 counterexample: a single worker lifetime in which a log_batch call
fails and the worker nevertheless performs a further log_batch call. In
failCmds the handle stays stored through commands 1..6 — one lifetime —
after the 4th command the send of ["a"] has failed and exactly one batch
was issued, yet the final trace contains a second batch ["b"] taken and
sent by the same worker after the failure; the first error is pushed at
exit. This refutes the claim that after a failed log_batch the worker
performs no further log_batch operations and stops draining. -/
theorem c2_counterexample :
    (exec failCmds initSys).sent =
      [[⟨"a", .fin 1, 0, none⟩], [⟨"b", .fin 2, 1, none⟩]] ∧
    (exec failCmds initSys).d.error = some (.apiError "INTERNAL_ERROR" "boom") ∧
    (exec failCmds initSys).workers = [] ∧
    (∀ k ∈ [1, 2, 3, 4, 5, 6], ((exec (failCmds.take k) initSys).d.task).isSome = true) ∧
    (exec (failCmds.take 4) initSys).sent = [[⟨"a", .fin 1, 0, none⟩]] := by
  decide

/-- C2 amended: within one worker lifetime, after a log_batch failure the
worker keeps the first error — the outcome of a later log_batch call is
dropped — records it into the shared slot only at exit (where the first
stored error wins), and moves past the failed batch without retrying it;
but it does not stop draining: the drain guard tests the stored shared
error, not the worker-local one, so metrics enqueued after the failure are
still taken and sent in the same lifetime, and draining stops only when a
stored error is visible at the loop top. -/
theorem c2_amended_first_error_wins_drain_guard_is_shared :
    (∀ (s : Sys) (i : Nat) (w : Worker) (b : List Metric) (e : Err) (net : Option Err),
        s.workers[i]? = some w → w.pc = .sending b → w.err = some e →
        (workerStep s i net).workers = s.workers.set i ⟨.top, some e⟩ ∧
        (workerStep s i net).sent = s.sent ++ [b]) ∧
    (∀ (s : Sys) (i : Nat) (w : Worker) (net : Option Err),
        s.workers[i]? = some w → w.pc = .top → s.d.error.isSome = true →
        (workerStep s i net).sent = s.sent ∧
        (workerStep s i net).d.metrics = s.d.metrics) ∧
    (∀ (s : Sys) (i : Nat) (w : Worker) (net : Option Err),
        s.workers[i]? = some w → w.pc = .exiting →
        (workerStep s i net).d.error =
          (if s.d.error.isNone then w.err else s.d.error)) := by
  refine ⟨?_, ?_, ?_⟩
  · intro s i w b e net hG hpc herr
    constructor <;> simp [workerStep, hG, hpc, herr]
  · intro s i w net hG hpc hE
    have hg : ¬(s.d.error = none ∧ s.d.metrics ≠ []) := by
      rintro ⟨h1, h2⟩
      rw [h1] at hE
      simp at hE
    constructor <;> simp only [workerStep, hG, hpc, if_neg hg] <;>
      split <;> simp [Data.pushError_metrics]
  · intro s i w net hG hpc
    simp only [workerStep, hG, hpc]
    unfold Data.pushError
    split <;> rename_i hsplit <;> simp at hsplit <;> simp [hsplit]

theorem c2_amended_first_error_wins_drain_guard_is_shared_witness :
    ((workerStep (exec (failCmds.take 5) initSys) 0 (some (.message "later"))).workers =
       (exec (failCmds.take 5) initSys).workers.set 0
         ⟨.top, some (.apiError "INTERNAL_ERROR" "boom")⟩ ∧
     (workerStep (exec (failCmds.take 5) initSys) 0 (some (.message "later"))).sent =
       (exec (failCmds.take 5) initSys).sent ++ [[⟨"b", .fin 2, 1, none⟩]]) ∧
    ((workerStep { errSys with workers := [⟨.top, none⟩] } 0 none).sent =
       ({ errSys with workers := [⟨.top, none⟩] } : Sys).sent ∧
     (workerStep { errSys with workers := [⟨.top, none⟩] } 0 none).d.metrics =
       ({ errSys with workers := [⟨.top, none⟩] } : Sys).d.metrics) ∧
    (workerStep { errSys with workers := [⟨.exiting, some (.message "w")⟩] } 0 none).d.error =
      (if ({ errSys with workers := [⟨.exiting, some (.message "w")⟩] } : Sys).d.error.isNone
       then some (.message "w")
       else ({ errSys with workers := [⟨.exiting, some (.message "w")⟩] } : Sys).d.error) :=
  ⟨c2_amended_first_error_wins_drain_guard_is_shared.1
     (exec (failCmds.take 5) initSys) 0
     ⟨.sending [⟨"b", .fin 2, 1, none⟩], some (.apiError "INTERNAL_ERROR" "boom")⟩
     [⟨"b", .fin 2, 1, none⟩] (.apiError "INTERNAL_ERROR" "boom")
     (some (.message "later")) (by decide) rfl rfl,
   c2_amended_first_error_wins_drain_guard_is_shared.2.1
     { errSys with workers := [⟨.top, none⟩] } 0 ⟨.top, none⟩ none rfl rfl (by decide),
   c2_amended_first_error_wins_drain_guard_is_shared.2.2
     { errSys with workers := [⟨.exiting, some (.message "w")⟩] } 0
     ⟨.exiting, some (.message "w")⟩ none rfl rfl⟩

/-! ## Chunking lemmas for MlflowRun::log_batch -/

theorem flatten_map_const_nil {α β} (l : List α) :
    (l.map (fun _ => ([] : List β))).flatten = [] := by
  induction l with
  | nil => rfl
  | cons a tl ih => simp [ih]

theorem chunksGo_flatten {α} (n : Nat) (hn : 0 < n) :
    ∀ (fuel : Nat) (xs : List α), xs.length ≤ fuel →
      (chunksGo n fuel xs).flatten = xs := by
  intro fuel
  induction fuel with
  | zero =>
    intro xs h
    have hx : xs = [] := List.length_eq_zero.mp (Nat.le_zero.mp h)
    rw [hx]
    rfl
  | succ k ih =>
    intro xs h
    cases xs with
    | nil => rfl
    | cons a tl =>
      rw [show chunksGo n (k + 1) (a :: tl) =
          (a :: tl).take n :: chunksGo n k ((a :: tl).drop n) from rfl]
      rw [List.flatten_cons]
      rw [ih ((a :: tl).drop n) (by simp at h ⊢; omega)]
      exact List.take_append_drop n (a :: tl)

theorem chunksGo_mem_length {α} (n : Nat) :
    ∀ (fuel : Nat) (xs : List α) (c : List α), c ∈ chunksGo n fuel xs →
      c.length ≤ n := by
  intro fuel
  induction fuel with
  | zero =>
    intro xs c hc
    simp [chunksGo] at hc
  | succ k ih =>
    intro xs c hc
    cases xs with
    | nil => simp [chunksGo] at hc
    | cons a tl =>
      rw [show chunksGo n (k + 1) (a :: tl) =
          (a :: tl).take n :: chunksGo n k ((a :: tl).drop n) from rfl] at hc
      rcases List.mem_cons.mp hc with hc | hc
      · rw [hc]
        simp
      · exact ih _ c hc

theorem chunks_flatten {α} (n : Nat) (hn : 0 < n) (xs : List α) :
    (chunks n xs).flatten = xs :=
  chunksGo_flatten n hn xs.length xs le_rfl

theorem chunks_mem_length {α} (n : Nat) (xs : List α) (c : List α)
    (hc : c ∈ chunks n xs) : c.length ≤ n :=
  chunksGo_mem_length n xs.length xs c hc

/-- C8: every invocation of the HTTP client's log_batch issued by
MlflowRun::log_batch respects all four size limits (at most 1000 metrics,
100 params, 100 tags, and 1000 entries in total), and the concatenation of
the issued calls, per kind, is exactly the input in its original order. -/
theorem c8_log_batch_respects_limits_and_order (ms : List Metric) (ps : List Param)
    (ts : List RunTag) :
    (∀ c ∈ logBatchCalls ms ps ts,
        c.metrics.length ≤ LOG_BATCH_MAX_METRICS ∧
        c.params.length ≤ LOG_BATCH_MAX_PARAMS ∧
        c.tags.length ≤ LOG_BATCH_MAX_TAGS ∧
        c.metrics.length + c.params.length + c.tags.length ≤ LOG_BATCH_MAX_TOTAL) ∧
    ((logBatchCalls ms ps ts).map BatchCall.metrics).flatten = ms ∧
    ((logBatchCalls ms ps ts).map BatchCall.params).flatten = ps ∧
    ((logBatchCalls ms ps ts).map BatchCall.tags).flatten = ts := by
  unfold logBatchCalls
  by_cases h0 : ms.length + ps.length + ts.length = 0
  · have hms : ms = [] := List.length_eq_zero.mp (by omega)
    have hps : ps = [] := List.length_eq_zero.mp (by omega)
    have hts : ts = [] := List.length_eq_zero.mp (by omega)
    rw [if_pos h0]
    simp [hms, hps, hts]
  · rw [if_neg h0]
    by_cases hfast : ms.length + ps.length + ts.length ≤ LOG_BATCH_MAX_TOTAL ∧
        ms.length ≤ LOG_BATCH_MAX_METRICS ∧ ps.length ≤ LOG_BATCH_MAX_PARAMS ∧
        ts.length ≤ LOG_BATCH_MAX_TAGS
    · rw [if_pos hfast]
      refine ⟨?_, by simp, by simp, by simp⟩
      intro c hc
      simp only [List.mem_singleton] at hc
      rw [hc]
      exact ⟨hfast.2.1, hfast.2.2.1, hfast.2.2.2, hfast.1⟩
    · rw [if_neg hfast]
      have hM : (0 : Nat) < LOG_BATCH_MAX_METRICS := by norm_num [LOG_BATCH_MAX_METRICS]
      have hP : (0 : Nat) < LOG_BATCH_MAX_PARAMS := by norm_num [LOG_BATCH_MAX_PARAMS]
      have hT : (0 : Nat) < LOG_BATCH_MAX_TAGS := by norm_num [LOG_BATCH_MAX_TAGS]
      refine ⟨?_, ?_, ?_, ?_⟩
      · intro c hc
        simp only [List.mem_append, List.mem_map] at hc
        rcases hc with (⟨ch, hch, hc⟩ | ⟨ch, hch, hc⟩) | ⟨ch, hch, hc⟩ <;> rw [← hc]
        · have := chunks_mem_length LOG_BATCH_MAX_METRICS ms ch hch
          refine ⟨this, by simp [LOG_BATCH_MAX_PARAMS], by simp [LOG_BATCH_MAX_TAGS], ?_⟩
          simp only [List.length_nil]
          norm_num [LOG_BATCH_MAX_METRICS, LOG_BATCH_MAX_TOTAL] at this ⊢
          omega
        · have := chunks_mem_length LOG_BATCH_MAX_PARAMS ps ch hch
          refine ⟨by simp [LOG_BATCH_MAX_METRICS], this, by simp [LOG_BATCH_MAX_TAGS], ?_⟩
          simp only [List.length_nil]
          norm_num [LOG_BATCH_MAX_PARAMS, LOG_BATCH_MAX_TOTAL] at this ⊢
          omega
        · have := chunks_mem_length LOG_BATCH_MAX_TAGS ts ch hch
          refine ⟨by simp [LOG_BATCH_MAX_METRICS], by simp [LOG_BATCH_MAX_PARAMS], this, ?_⟩
          simp only [List.length_nil]
          norm_num [LOG_BATCH_MAX_TAGS, LOG_BATCH_MAX_TOTAL] at this ⊢
          omega
      · simp only [List.map_append, List.map_map, List.flatten_append]
        rw [show (BatchCall.metrics ∘ fun c : List Metric =>
              ({ metrics := c, params := [], tags := [] } : BatchCall)) = id from rfl,
            show (BatchCall.metrics ∘ fun c : List Param =>
              ({ metrics := [], params := c, tags := [] } : BatchCall)) =
              (fun _ => ([] : List Metric)) from rfl,
            show (BatchCall.metrics ∘ fun c : List RunTag =>
              ({ metrics := [], params := [], tags := c } : BatchCall)) =
              (fun _ => ([] : List Metric)) from rfl]
        rw [List.map_id, flatten_map_const_nil, flatten_map_const_nil,
          chunks_flatten _ hM]
        simp
      · simp only [List.map_append, List.map_map, List.flatten_append]
        rw [show (BatchCall.params ∘ fun c : List Metric =>
              ({ metrics := c, params := [], tags := [] } : BatchCall)) =
              (fun _ => ([] : List Param)) from rfl,
            show (BatchCall.params ∘ fun c : List Param =>
              ({ metrics := [], params := c, tags := [] } : BatchCall)) = id from rfl,
            show (BatchCall.params ∘ fun c : List RunTag =>
              ({ metrics := [], params := [], tags := c } : BatchCall)) =
              (fun _ => ([] : List Param)) from rfl]
        rw [List.map_id, flatten_map_const_nil, flatten_map_const_nil,
          chunks_flatten _ hP]
        simp
      · simp only [List.map_append, List.map_map, List.flatten_append]
        rw [show (BatchCall.tags ∘ fun c : List Metric =>
              ({ metrics := c, params := [], tags := [] } : BatchCall)) =
              (fun _ => ([] : List RunTag)) from rfl,
            show (BatchCall.tags ∘ fun c : List Param =>
              ({ metrics := [], params := c, tags := [] } : BatchCall)) =
              (fun _ => ([] : List RunTag)) from rfl,
            show (BatchCall.tags ∘ fun c : List RunTag =>
              ({ metrics := [], params := [], tags := c } : BatchCall)) = id from rfl]
        rw [List.map_id, flatten_map_const_nil, flatten_map_const_nil,
          chunks_flatten _ hT]
        simp

theorem c8_log_batch_respects_limits_and_order_witness :
    (⟨[⟨"m", F64.fin 1, 0, none⟩], [⟨"p", "1"⟩], [⟨"t", "2"⟩]⟩ : BatchCall).metrics.length ≤
        LOG_BATCH_MAX_METRICS ∧
    ((logBatchCalls [⟨"m", F64.fin 1, 0, none⟩] [⟨"p", "1"⟩] [⟨"t", "2"⟩]).map
        BatchCall.metrics).flatten = [⟨"m", F64.fin 1, 0, none⟩] :=
  ⟨((c8_log_batch_respects_limits_and_order [⟨"m", F64.fin 1, 0, none⟩]
       [⟨"p", "1"⟩] [⟨"t", "2"⟩]).1 _ (by
         norm_num [logBatchCalls, LOG_BATCH_MAX_TOTAL, LOG_BATCH_MAX_METRICS,
           LOG_BATCH_MAX_PARAMS, LOG_BATCH_MAX_TAGS])).1,
   (c8_log_batch_respects_limits_and_order [⟨"m", F64.fin 1, 0, none⟩]
       [⟨"p", "1"⟩] [⟨"t", "2"⟩]).2.1⟩

/-! ## The derived total order on Metric -/

theorem cmp3_self {α : Type} [LinearOrder α] (a : α) :
    (if a < a then Ordering.lt else if a = a then Ordering.eq else Ordering.gt) =
      Ordering.eq := by
  simp

theorem cmp3_swap {α : Type} [LinearOrder α] (a b : α) :
    (if a < b then Ordering.lt else if a = b then Ordering.eq else Ordering.gt).swap =
      (if b < a then Ordering.lt else if b = a then Ordering.eq else Ordering.gt) := by
  rcases lt_trichotomy a b with h | h | h
  · rw [if_pos h, if_neg (not_lt.mpr h.le), if_neg (ne_of_gt h)]
    rfl
  · rw [h, if_neg (lt_irrefl b), if_pos rfl]
    rfl
  · rw [if_neg (not_lt.mpr h.le), if_neg (ne_of_lt h).symm, if_pos h]
    rfl

theorem cmp3_eq_iff {α : Type} [LinearOrder α] (a b : α) :
    ((if a < b then Ordering.lt else if a = b then Ordering.eq else Ordering.gt) =
      Ordering.eq) ↔ a = b := by
  rcases lt_trichotomy a b with h | h | h
  · rw [if_pos h]
    simp [ne_of_lt h]
  · rw [h, if_neg (lt_irrefl b), if_pos rfl]
    simp
  · rw [if_neg (not_lt.mpr h.le), if_neg (ne_of_lt h).symm]
    simp [(ne_of_lt h).symm]

theorem charToNat_inj {a b : Char} (h : a.toNat = b.toNat) : a = b :=
  Char.ext_iff.mpr (UInt32.ext_iff.mpr h)

theorem strCmp_self (l : List Char) : strCmp l l = .eq := by
  induction l with
  | nil => rfl
  | cons a tl ih =>
    show (if a.toNat < a.toNat then Ordering.lt
      else if a.toNat = a.toNat then Ordering.eq else Ordering.gt).then (strCmp tl tl) = .eq
    rw [cmp3_self, ih]
    rfl

theorem strCmp_swap (l1 l2 : List Char) : (strCmp l1 l2).swap = strCmp l2 l1 := by
  induction l1 generalizing l2 with
  | nil => cases l2 <;> rfl
  | cons a tl ih =>
    cases l2 with
    | nil => rfl
    | cons b tl2 =>
      show ((if a.toNat < b.toNat then Ordering.lt
          else if a.toNat = b.toNat then Ordering.eq else Ordering.gt).then
            (strCmp tl tl2)).swap = _
      rw [Ordering.swap_then, cmp3_swap, ih tl2]
      rfl

theorem strCmp_eq_iff (l1 l2 : List Char) : strCmp l1 l2 = .eq ↔ l1 = l2 := by
  induction l1 generalizing l2 with
  | nil => cases l2 <;> simp [strCmp]
  | cons a tl ih =>
    cases l2 with
    | nil => simp [strCmp]
    | cons b tl2 =>
      show (if a.toNat < b.toNat then Ordering.lt
          else if a.toNat = b.toNat then Ordering.eq else Ordering.gt).then
            (strCmp tl tl2) = .eq ↔ _
      rw [Ordering.then_eq_eq, cmp3_eq_iff, ih tl2]
      constructor
      · rintro ⟨h1, h2⟩
        rw [charToNat_inj h1, h2]
      · rintro h
        injection h with h1 h2
        rw [h1, h2]
        exact ⟨rfl, rfl⟩

theorem F64.cmpOrderedFloat_self (a : F64) : a.cmpOrderedFloat a = .eq := by
  cases a <;> simp [F64.cmpOrderedFloat, F64.cmpIEEE]

theorem F64.cmpOrderedFloat_swap (a b : F64) :
    (a.cmpOrderedFloat b).swap = b.cmpOrderedFloat a := by
  cases a <;> cases b <;>
    simp only [F64.cmpOrderedFloat, F64.cmpIEEE] <;>
    first
    | rfl
    | (rename_i q1 q2; exact cmp3_swap q1 q2)

theorem F64.cmpOrderedFloat_eq_iff (a b : F64) :
    a.cmpOrderedFloat b = .eq ↔ a.beqOrderedFloat b = true := by
  cases a <;> cases b <;>
    simp [F64.cmpOrderedFloat, F64.cmpIEEE, F64.beqOrderedFloat, cmp3_eq_iff]

theorem intCmp_self (a : Int) : intCmp a a = .eq := cmp3_self a

theorem intCmp_swap (a b : Int) : (intCmp a b).swap = intCmp b a := cmp3_swap a b

theorem intCmp_eq_iff (a b : Int) : intCmp a b = .eq ↔ a = b := cmp3_eq_iff a b

theorem optIntCmp_self (a : Option Int) : optIntCmp a a = .eq := by
  cases a with
  | none => rfl
  | some x => exact intCmp_self x

theorem optIntCmp_swap (a b : Option Int) : (optIntCmp a b).swap = optIntCmp b a := by
  cases a <;> cases b <;> first | rfl | (rename_i x y; exact intCmp_swap x y)

theorem optIntCmp_eq_iff (a b : Option Int) : optIntCmp a b = .eq ↔ a = b := by
  cases a <;> cases b <;> simp [optIntCmp, intCmp_eq_iff]

/-- C9: the derived equality and ordering of Metric compare all four
fields, the f64 value through OrderedFloat's NaN-safe total order rather
than the IEEE partial order: equality is reflexive and the comparison is a
total antisymmetric function even on NaN values — two metrics agreeing on
the other fields and both carrying NaN compare equal, although the IEEE
partial comparison of NaN with anything (itself included) is undefined —
and the order's equality agrees with the derived equality. -/
theorem c9_metric_total_order_nan_safe :
    (∀ a b : Metric, a.beq b = true ↔
        (a.key = b.key ∧ a.value.beqOrderedFloat b.value = true ∧
         a.timestamp = b.timestamp ∧ a.step = b.step)) ∧
    (∀ m : Metric, m.beq m = true) ∧
    (∀ m : Metric, m.cmp m = .eq) ∧
    (∀ a b : Metric, (a.cmp b).swap = b.cmp a) ∧
    (∀ a b : Metric, a.cmp b = .eq ↔ a.beq b = true) ∧
    (∀ a : F64, a.cmpIEEE .nan = none ∧ F64.cmpIEEE .nan a = none) ∧
    (∀ (k : String) (t : Int) (st : Option Int),
        Metric.cmp ⟨k, .nan, t, st⟩ ⟨k, .nan, t, st⟩ = .eq ∧
        Metric.beq ⟨k, .nan, t, st⟩ ⟨k, .nan, t, st⟩ = true) := by
  have hbeq : ∀ a b : Metric, a.beq b = true ↔
      (a.key = b.key ∧ a.value.beqOrderedFloat b.value = true ∧
       a.timestamp = b.timestamp ∧ a.step = b.step) := by
    intro a b
    simp [Metric.beq, Bool.and_eq_true, beq_iff_eq, and_assoc]
  have hbeq_self : ∀ m : Metric, m.beq m = true := by
    intro m
    rw [hbeq]
    refine ⟨rfl, ?_, rfl, rfl⟩
    rw [← F64.cmpOrderedFloat_eq_iff]
    exact F64.cmpOrderedFloat_self m.value
  have hcmp_self : ∀ m : Metric, m.cmp m = .eq := by
    intro m
    unfold Metric.cmp
    rw [strCmp_self, F64.cmpOrderedFloat_self, intCmp_self, optIntCmp_self]
    rfl
  refine ⟨hbeq, hbeq_self, hcmp_self, ?_, ?_, ?_, ?_⟩
  · intro a b
    unfold Metric.cmp
    rw [Ordering.swap_then, Ordering.swap_then, Ordering.swap_then,
      strCmp_swap, F64.cmpOrderedFloat_swap, intCmp_swap, optIntCmp_swap]
  · intro a b
    unfold Metric.cmp
    rw [Ordering.then_eq_eq, Ordering.then_eq_eq, Ordering.then_eq_eq,
      strCmp_eq_iff, F64.cmpOrderedFloat_eq_iff, intCmp_eq_iff, optIntCmp_eq_iff,
      hbeq]
    constructor
    · rintro ⟨h1, h2, h3, h4⟩
      exact ⟨String.ext h1, h2, h3, h4⟩
    · rintro ⟨h1, h2, h3, h4⟩
      exact ⟨by rw [h1], h2, h3, h4⟩
  · intro a
    constructor
    · cases a <;> rfl
    · cases a <;> rfl
  · intro k t st
    exact ⟨hcmp_self _, hbeq_self _⟩

end MlflowClient
